import Mathlib

/-!
Verification of the serienmacher deep object-graph codec.

This file shallowly embeds the codec of the composite variant
(`serialize` / `deserialize` / `serializeComplex` / `parseComplex` /
`serializeBasic` / `parseBasic` / `getValueType` / `findNativeIndex` /
`parseFunctionString`) together with the property-enumeration loop of the
`src/src/index.mts` variant, and proves the claimed properties about them.

Modelling conventions:
- JavaScript strings are `List Char`.
- JavaScript numbers are modelled as integers extended with `NaN` and the
  two infinities (`JSNumber`); the codec itself only produces integral
  indices, and `JSON.stringify` maps the non-finite values to the text
  `null`. Formatting of non-integral finite floats is not modelled.
- Object identity is a reference (`Nat`) into an explicit heap; `===` on
  objects is equality of references.
- JavaScript `Symbol` values are modelled as records carrying an allocation
  id, an optional global-registry key (`Symbol.keyFor`) and an optional
  description.
- `JSON.stringify` / `JSON.parse` of the *basic payloads* are modelled
  textually (with string escaping); the outer envelope `[typeTag, payload]`
  is kept structural, since the codec treats it as an opaque data structure.
- A JavaScript exception is modelled as `Option.none`; the `Function` and
  `eval` compilation primitives are modelled by explicit oracles
  (`funCompiles` / `classCompiles`) so that the try/catch structure of
  `parseFunctionString` is preserved.
-/

/-! ## Generic JavaScript-style list helpers -/

/-- `Array.prototype.findIndex`: index of the first element satisfying `p`,
`-1` when there is none. -/
def jsFindIndex {α : Type} (p : α → Bool) : List α → Int
  | [] => -1
  | a :: as =>
    if p a then 0
    else if jsFindIndex p as = -1 then -1 else jsFindIndex p as + 1

/-- JavaScript array indexing `l[i]` for an integer index:
`undefined` (here `none`) for negative or out-of-range indices. -/
def jsArrGet {α : Type} (l : List α) (i : Int) : Option α :=
  if 0 ≤ i then l.get? i.toNat else none

/-- `findOrAdd` of the composite variant: get the index of a value in the
list, appending it first when it is not yet present. Membership is decided
by `===` (reference identity for objects and symbols). -/
def findOrAdd {α : Type} [DecidableEq α] (list : List α) (value : α) : Nat × List α :=
  if jsFindIndex (fun v => v == value) list = -1 then
    (list.length, list ++ [value])
  else
    ((jsFindIndex (fun v => v == value) list).toNat, list)

theorem jsFindIndex_nonneg_or {α : Type} (p : α → Bool) (l : List α) :
    jsFindIndex p l = -1 ∨ 0 ≤ jsFindIndex p l := by
  induction l with
  | nil => exact Or.inl rfl
  | cons a as ih =>
    by_cases h : p a
    · right; simp [jsFindIndex, h]
    · rcases ih with h1 | h1
      · left; simp [jsFindIndex, h, h1]
      · right; simp only [jsFindIndex, h, if_false]
        split
        · omega
        · omega

theorem jsFindIndex_eq_neg_one_iff {α : Type} (p : α → Bool) (l : List α) :
    jsFindIndex p l = -1 ↔ ∀ a ∈ l, p a = false := by
  induction l with
  | nil => simp [jsFindIndex]
  | cons a as ih =>
    cases hpa : p a with
    | true => simp [jsFindIndex, hpa]
    | false =>
      rw [jsFindIndex, if_neg (by simp [hpa])]
      by_cases hin : jsFindIndex p as = -1
      · rw [if_pos hin]
        simp only [List.mem_cons]
        constructor
        · rintro - b (rfl | hb)
          · exact hpa
          · exact (ih.mp hin) b hb
        · intro _; trivial
      · rw [if_neg hin]
        simp only [List.mem_cons]
        constructor
        · intro hc
          exfalso
          rcases jsFindIndex_nonneg_or p as with h1 | h1
          · exact hin h1
          · omega
        · intro hall
          exact absurd (ih.mpr fun b hb => hall b (Or.inr hb)) hin

theorem jsFindIndex_spec {α : Type} (p : α → Bool) (l : List α)
    (h : jsFindIndex p l ≠ -1) :
    0 ≤ jsFindIndex p l ∧
      ∃ a, l.get? (jsFindIndex p l).toNat = some a ∧ p a = true := by
  induction l with
  | nil => simp [jsFindIndex] at h
  | cons a as ih =>
    by_cases hp : p a
    · refine ⟨by simp [jsFindIndex, hp], a, ?_, hp⟩
      simp [jsFindIndex, hp]
    · simp only [jsFindIndex, hp, if_false] at h ⊢
      have hne : jsFindIndex p as ≠ -1 := by
        intro hc; simp [hc] at h
      rcases ih hne with ⟨hge, b, hb, hpb⟩
      rw [if_neg hne]
      refine ⟨by omega, b, ?_, hpb⟩
      have : (jsFindIndex p as + 1).toNat = (jsFindIndex p as).toNat + 1 := by omega
      simpa [this] using hb

theorem jsFindIndex_mem {α : Type} (p : α → Bool) (l : List α) (a : α)
    (ha : a ∈ l) (hp : p a = true) : jsFindIndex p l ≠ -1 := by
  intro hc
  have := (jsFindIndex_eq_neg_one_iff p l).mp hc a ha
  rw [hp] at this
  exact absurd this (by decide)

theorem findOrAdd_mem {α : Type} [DecidableEq α] (l : List α) (v : α) (hv : v ∈ l) :
    findOrAdd l v = ((jsFindIndex (fun x => x == v) l).toNat, l) := by
  have hne := jsFindIndex_mem (fun x => x == v) l v hv (by simp)
  simp [findOrAdd, hne]

theorem findOrAdd_not_mem {α : Type} [DecidableEq α] (l : List α) (v : α) (hv : v ∉ l) :
    findOrAdd l v = (l.length, l ++ [v]) := by
  have : jsFindIndex (fun x => x == v) l = -1 := by
    rw [jsFindIndex_eq_neg_one_iff]
    intro a ha
    simp only [beq_eq_false_iff_ne, ne_eq]
    rintro rfl
    exact hv ha
  simp [findOrAdd, this]

theorem findOrAdd_get {α : Type} [DecidableEq α] (l : List α) (v : α) :
    (findOrAdd l v).2.get? (findOrAdd l v).1 = some v := by
  by_cases hv : v ∈ l
  · rw [findOrAdd_mem l v hv]
    have hne := jsFindIndex_mem (fun x => x == v) l v hv (by simp)
    rcases jsFindIndex_spec (fun x => x == v) l hne with ⟨_, a, ha, hpa⟩
    simp only [beq_iff_eq] at hpa
    subst hpa
    exact ha
  · rw [findOrAdd_not_mem l v hv]
    simp

theorem findOrAdd_nodup {α : Type} [DecidableEq α] (l : List α) (v : α)
    (h : l.Nodup) : (findOrAdd l v).2.Nodup := by
  by_cases hv : v ∈ l
  · rw [findOrAdd_mem l v hv]; exact h
  · rw [findOrAdd_not_mem l v hv]
    simpa [List.nodup_append] using ⟨h, fun hc => hv hc⟩

theorem findOrAdd_mem_result {α : Type} [DecidableEq α] (l : List α) (v : α) :
    v ∈ (findOrAdd l v).2 := by
  by_cases hv : v ∈ l
  · rw [findOrAdd_mem l v hv]; exact hv
  · rw [findOrAdd_not_mem l v hv]; simp

theorem findOrAdd_head {α : Type} [DecidableEq α] (l : List α) (v : α) :
    (findOrAdd l v).2.head? = if l = [] then some v else l.head? := by
  by_cases hv : v ∈ l
  · rw [findOrAdd_mem l v hv]
    rcases l with _ | ⟨a, as⟩
    · simp at hv
    · simp
  · rw [findOrAdd_not_mem l v hv]
    rcases l with _ | ⟨a, as⟩
    · simp
    · simp

/-! ## Decimal numerals (`Number.prototype.toString` / numeric parsing) -/

/-- The character for a decimal digit. -/
def digitChar (n : Nat) : Char :=
  if n = 0 then '0' else if n = 1 then '1' else if n = 2 then '2'
  else if n = 3 then '3' else if n = 4 then '4' else if n = 5 then '5'
  else if n = 6 then '6' else if n = 7 then '7' else if n = 8 then '8'
  else '9'

def digitVal (c : Char) : Option Nat :=
  if c = '0' then some 0 else if c = '1' then some 1 else if c = '2' then some 2
  else if c = '3' then some 3 else if c = '4' then some 4 else if c = '5' then some 5
  else if c = '6' then some 6 else if c = '7' then some 7 else if c = '8' then some 8
  else if c = '9' then some 9 else none

def natToCharsAux : Nat → Nat → List Char
  | 0, _ => []
  | fuel + 1, n =>
    if n < 10 then [digitChar n]
    else natToCharsAux fuel (n / 10) ++ [digitChar (n % 10)]

/-- Decimal numeral of a natural number. -/
def natToChars (n : Nat) : List Char := natToCharsAux (n + 1) n

/-- Decimal numeral of an integer (`(-1).toString()` is `"-1"`). -/
def intToChars (i : Int) : List Char :=
  if i < 0 then '-' :: natToChars i.natAbs else natToChars i.toNat

def parseNatAux : List Char → Nat → Option Nat
  | [], acc => some acc
  | c :: rest, acc =>
    match digitVal c with
    | some d => parseNatAux rest (10 * acc + d)
    | none => none

def parseNatChars (cs : List Char) : Option Nat :=
  if cs.isEmpty then none else parseNatAux cs 0

/-- Integer parsing: an optional sign followed by decimal digits. -/
def parseIntChars : List Char → Option Int
  | [] => none
  | c :: rest =>
    if c = '-' then (parseNatChars rest).map (fun n => -(n : Int))
    else (parseNatChars (c :: rest)).map (fun n => (n : Int))

theorem digitVal_digitChar (n : Nat) (h : n < 10) : digitVal (digitChar n) = some n := by
  interval_cases n <;> decide

theorem natToCharsAux_fuel (fuel fuel' n : Nat) (h : n < fuel) (h' : n < fuel') :
    natToCharsAux fuel n = natToCharsAux fuel' n := by
  induction fuel generalizing fuel' n with
  | zero => omega
  | succ f ih =>
    rcases fuel' with _ | f'
    · omega
    by_cases h10 : n < 10
    · rw [natToCharsAux, natToCharsAux, if_pos h10, if_pos h10]
    · have hd : n / 10 < n := Nat.div_lt_self (by omega) (by omega)
      rw [natToCharsAux, natToCharsAux, if_neg h10, if_neg h10,
        ih f' (n / 10) (by omega) (by omega)]

theorem natToChars_small (n : Nat) (h : n < 10) : natToChars n = [digitChar n] := by
  rw [natToChars, natToCharsAux, if_pos h]

theorem natToChars_large (n : Nat) (h : 10 ≤ n) :
    natToChars n = natToChars (n / 10) ++ [digitChar (n % 10)] := by
  have hd : n / 10 < n := Nat.div_lt_self (by omega) (by omega)
  have e1 : natToChars n = natToCharsAux n (n / 10) ++ [digitChar (n % 10)] := by
    rw [natToChars, natToCharsAux, if_neg (by omega : ¬ n < 10)]
  rw [e1, natToCharsAux_fuel n (n / 10 + 1) (n / 10) (by omega) (by omega)]
  rfl

theorem natToChars_ne_nil (n : Nat) : natToChars n ≠ [] := by
  by_cases h : n < 10
  · rw [natToChars_small n h]; simp
  · rw [natToChars_large n (by omega)]; simp

theorem parseNatAux_append (a b : List Char) (acc : Nat) :
    parseNatAux (a ++ b) acc = (parseNatAux a acc).bind (fun r => parseNatAux b r) := by
  induction a generalizing acc with
  | nil => simp [parseNatAux]
  | cons c rest ih =>
    simp only [List.cons_append, parseNatAux]
    cases digitVal c with
    | some d => simp [ih]
    | none => simp

theorem parseNatAux_natToChars (n : Nat) :
    ∀ acc, parseNatAux (natToChars n) acc = some (acc * 10 ^ (natToChars n).length + n) := by
  induction n using Nat.strong_induction_on with
  | _ n ih =>
    intro acc
    by_cases h : n < 10
    · rw [natToChars_small n h]
      simp [parseNatAux, digitVal_digitChar n h]
      omega
    · have hd : n / 10 < n := Nat.div_lt_self (by omega) (by omega)
      rw [natToChars_large n (by omega), parseNatAux_append, ih (n / 10) hd acc]
      show parseNatAux [digitChar (n % 10)]
        (acc * 10 ^ (natToChars (n / 10)).length + n / 10) = _
      rw [parseNatAux, digitVal_digitChar (n % 10) (Nat.mod_lt n (by omega))]
      show some _ = _
      simp only [List.length_append, List.length_cons, List.length_nil]
      congr 1
      generalize hL : (natToChars (n / 10)).length = L
      generalize hq : n / 10 = q
      generalize hr : n % 10 = r
      have hn : n = 10 * q + r := by omega
      rw [pow_succ, hn]
      ring

theorem parseNat_natToChars (n : Nat) : parseNatChars (natToChars n) = some n := by
  rw [parseNatChars,
    if_neg (by simp only [List.isEmpty_iff]; exact natToChars_ne_nil n),
    parseNatAux_natToChars n 0]
  simp

theorem natToChars_head_digit (n : Nat) :
    ∃ d rest, natToChars n = digitChar d :: rest ∧ d < 10 := by
  induction n using Nat.strong_induction_on with
  | _ n ih =>
    by_cases h : n < 10
    · exact ⟨n, [], natToChars_small n h, h⟩
    · have hd : n / 10 < n := Nat.div_lt_self (by omega) (by omega)
      rcases ih (n / 10) hd with ⟨d, rest, hrest, hlt⟩
      refine ⟨d, rest ++ [digitChar (n % 10)], ?_, hlt⟩
      rw [natToChars_large n (by omega), hrest]
      simp

theorem digitChar_toNat (d : Nat) (h : d < 10) :
    48 ≤ (digitChar d).toNat ∧ (digitChar d).toNat ≤ 57 := by
  interval_cases d <;> decide

theorem parseInt_intToChars (i : Int) : parseIntChars (intToChars i) = some i := by
  by_cases h : i < 0
  · rw [intToChars, if_pos h, parseIntChars, if_pos rfl, parseNat_natToChars]
    show some (-(i.natAbs : Int)) = some i
    congr 1
    omega
  · rw [intToChars, if_neg h]
    rcases natToChars_head_digit i.toNat with ⟨d, rest, hrest, hd⟩
    have hne : digitChar d ≠ '-' := by
      intro hc
      have h48 := (digitChar_toNat d hd).1
      rw [hc] at h48
      exact absurd h48 (by decide)
    rw [hrest, parseIntChars, if_neg hne, ← hrest, parseNat_natToChars]
    show some ((i.toNat : Int)) = some i
    congr 1
    omega

/-! ## JSON encoding of basic values (`JSON.stringify` / `JSON.parse`) -/

/-- A JavaScript number: an integral finite value, `NaN`, or one of the
infinities (`typeof` is `"number"` for all of them). -/
inductive JSNumber
  | finite (i : Int)
  | nan
  | posInf
  | negInf
deriving DecidableEq, Repr

/-- A JSON-ready primitive: `null`, a boolean, a number or a string. -/
inductive JSPrim
  | pnull
  | pbool (b : Bool)
  | pnum (n : JSNumber)
  | pstr (cs : List Char)
deriving DecidableEq, Repr

def hexDigitChar (n : Nat) : Char :=
  if n < 10 then digitChar n
  else if n = 10 then 'a' else if n = 11 then 'b' else if n = 12 then 'c'
  else if n = 13 then 'd' else if n = 14 then 'e' else 'f'

def hexVal (c : Char) : Option Nat :=
  match digitVal c with
  | some d => some d
  | none =>
    if c = 'a' ∨ c = 'A' then some 10 else if c = 'b' ∨ c = 'B' then some 11
    else if c = 'c' ∨ c = 'C' then some 12 else if c = 'd' ∨ c = 'D' then some 13
    else if c = 'e' ∨ c = 'E' then some 14 else if c = 'f' ∨ c = 'F' then some 15
    else none

/-- `JSON.stringify` escaping of one string character: quote and backslash
get a backslash escape, control characters a `\u00XX` escape, every other
character is emitted verbatim. -/
def escChar (c : Char) : List Char :=
  if c = '"' then ['\\', '"']
  else if c = '\\' then ['\\', '\\']
  else if c.toNat < 32 then
    ['\\', 'u', '0', '0', hexDigitChar (c.toNat / 16), hexDigitChar (c.toNat % 16)]
  else [c]

def escapeChars : List Char → List Char
  | [] => []
  | c :: rest => escChar c ++ escapeChars rest

/-- `JSON.stringify` of a primitive value. -/
def jsonStringifyPrim : JSPrim → List Char
  | .pnull => ['n', 'u', 'l', 'l']
  | .pbool true => ['t', 'r', 'u', 'e']
  | .pbool false => ['f', 'a', 'l', 's', 'e']
  | .pnum (.finite i) => intToChars i
  | .pnum .nan => ['n', 'u', 'l', 'l']
  | .pnum .posInf => ['n', 'u', 'l', 'l']
  | .pnum .negInf => ['n', 'u', 'l', 'l']
  | .pstr cs => '"' :: (escapeChars cs ++ ['"'])

/-- JSON string-body parser: consumes characters until the closing quote,
decoding escapes; rejects raw control characters and bad escapes. -/
def parseStringBody : List Char → List Char → Option (List Char × List Char)
  | [], _ => none
  | c :: rest, acc =>
    if c = '"' then some (acc.reverse, rest)
    else if c = '\\' then
      match rest with
      | [] => none
      | e :: r =>
        if e = '"' then parseStringBody r ('"' :: acc)
        else if e = '\\' then parseStringBody r ('\\' :: acc)
        else if e = '/' then parseStringBody r ('/' :: acc)
        else if e = 'b' then parseStringBody r (Char.ofNat 8 :: acc)
        else if e = 'f' then parseStringBody r (Char.ofNat 12 :: acc)
        else if e = 'n' then parseStringBody r ('\n' :: acc)
        else if e = 'r' then parseStringBody r (Char.ofNat 13 :: acc)
        else if e = 't' then parseStringBody r ('\t' :: acc)
        else if e = 'u' then
          match r with
          | h1 :: h2 :: h3 :: h4 :: r2 =>
            match hexVal h1, hexVal h2, hexVal h3, hexVal h4 with
            | some a, some b, some c, some d =>
              parseStringBody r2 (Char.ofNat (4096 * a + 256 * b + 16 * c + d) :: acc)
            | _, _, _, _ => none
          | _ => none
        else none
    else if c.toNat < 32 then none
    else parseStringBody rest (c :: acc)

/-- `JSON.parse` restricted to primitive payloads (the only payloads the
codec produces on the basic path). -/
def jsonParsePrim (cs : List Char) : Option JSPrim :=
  if cs = ['n', 'u', 'l', 'l'] then some .pnull
  else if cs = ['t', 'r', 'u', 'e'] then some (.pbool true)
  else if cs = ['f', 'a', 'l', 's', 'e'] then some (.pbool false)
  else
    match cs with
    | [] => none
    | c :: rest =>
      if c = '"' then
        match parseStringBody rest [] with
        | some (s, []) => some (.pstr s)
        | _ => none
      else (parseIntChars (c :: rest)).map (fun i => .pnum (.finite i))

theorem hexVal_hexDigitChar (n : Nat) (h : n < 16) : hexVal (hexDigitChar n) = some n := by
  interval_cases n <;> decide

theorem parseStringBody_escChar (c : Char) (rest acc : List Char) :
    parseStringBody (escChar c ++ rest) acc = parseStringBody rest (c :: acc) := by
  by_cases hq : c = '"'
  · subst hq
    have e : escChar '"' = ['\\', '"'] := by decide
    rw [e, List.cons_append, List.cons_append, List.nil_append, parseStringBody.eq_def]
    simp only [reduceIte, if_neg (show ¬('\\' : Char) = '"' by decide)]
  · by_cases hb : c = '\\'
    · subst hb
      have e : escChar '\\' = ['\\', '\\'] := by decide
      rw [e, List.cons_append, List.cons_append, List.nil_append, parseStringBody.eq_def]
      simp only [reduceIte, if_neg (show ¬('\\' : Char) = '"' by decide)]
    · by_cases hc : c.toNat < 32
      · rw [escChar, if_neg hq, if_neg hb, if_pos hc]
        show parseStringBody
          ('\\' :: 'u' :: '0' :: '0' :: hexDigitChar (c.toNat / 16)
            :: hexDigitChar (c.toNat % 16) :: rest) acc = _
        rw [parseStringBody.eq_def]
        simp only [reduceIte]
        rw [show hexVal '0' = some 0 from rfl]
        rw [hexVal_hexDigitChar (c.toNat / 16) (by omega),
          hexVal_hexDigitChar (c.toNat % 16) (by omega)]
        show parseStringBody rest
          (Char.ofNat (4096 * 0 + 256 * 0 + 16 * (c.toNat / 16) + c.toNat % 16) :: acc) = _
        have he : 4096 * 0 + 256 * 0 + 16 * (c.toNat / 16) + c.toNat % 16 = c.toNat := by
          omega
        rw [he, Char.ofNat_toNat]
      · rw [escChar, if_neg hq, if_neg hb, if_neg hc]
        show parseStringBody (c :: rest) acc = _
        rw [parseStringBody.eq_def]
        simp only [if_neg hq, if_neg hb, if_neg hc]

theorem parseStringBody_escape (cs : List Char) :
    ∀ tail acc, parseStringBody (escapeChars cs ++ tail) acc
      = parseStringBody tail (cs.reverse ++ acc) := by
  induction cs with
  | nil => intro tail acc; simp [escapeChars]
  | cons c rest ih =>
    intro tail acc
    rw [escapeChars, List.append_assoc, parseStringBody_escChar, ih]
    simp

theorem intToChars_head (i : Int) :
    ∃ c rest, intToChars i = c :: rest ∧ 45 ≤ c.toNat ∧ c.toNat ≤ 57 := by
  by_cases h : i < 0
  · exact ⟨'-', natToChars i.natAbs, by rw [intToChars, if_pos h], by decide, by decide⟩
  · rcases natToChars_head_digit i.toNat with ⟨d, rest, hrest, hd⟩
    refine ⟨digitChar d, rest, by rw [intToChars, if_neg h, hrest], ?_, ?_⟩
    · have := (digitChar_toNat d hd).1; omega
    · exact (digitChar_toNat d hd).2

theorem jsonParse_num (i : Int) :
    jsonParsePrim (intToChars i) = some (.pnum (.finite i)) := by
  obtain ⟨c, rest, hcr, h1, h2⟩ := intToChars_head i
  have ne1 : c :: rest ≠ ['n', 'u', 'l', 'l'] := by
    intro h; injection h with hh _; rw [hh] at h2; exact absurd h2 (by decide)
  have ne2 : c :: rest ≠ ['t', 'r', 'u', 'e'] := by
    intro h; injection h with hh _; rw [hh] at h2; exact absurd h2 (by decide)
  have ne3 : c :: rest ≠ ['f', 'a', 'l', 's', 'e'] := by
    intro h; injection h with hh _; rw [hh] at h2; exact absurd h2 (by decide)
  have ne4 : ¬ c = '"' := by
    intro h; rw [h] at h1; exact absurd h1 (by decide)
  rw [jsonParsePrim.eq_def, hcr, if_neg ne1, if_neg ne2, if_neg ne3]
  simp only [if_neg ne4]
  rw [← hcr, parseInt_intToChars]
  rfl

/-- Whether a primitive survives the JSON text layer: `NaN` and the
infinities do not (`JSON.stringify` emits `null` for them). -/
def jsonFinite : JSPrim → Bool
  | .pnum .nan => false
  | .pnum .posInf => false
  | .pnum .negInf => false
  | _ => true

theorem jsonParse_jsonStringify (p : JSPrim) (h : jsonFinite p = true) :
    jsonParsePrim (jsonStringifyPrim p) = some p := by
  cases p with
  | pnull => decide
  | pbool b => cases b <;> decide
  | pnum n =>
    cases n with
    | finite i => exact jsonParse_num i
    | nan => exact absurd h (by decide)
    | posInf => exact absurd h (by decide)
    | negInf => exact absurd h (by decide)
  | pstr cs =>
    rw [jsonStringifyPrim, jsonParsePrim.eq_def]
    rw [if_neg (by intro h; injection h with hh _; exact absurd hh (by decide)),
      if_neg (by intro h; injection h with hh _; exact absurd hh (by decide)),
      if_neg (by intro h; injection h with hh _; exact absurd hh (by decide))]
    simp only [if_pos (rfl : ('"' : Char) = '"')]
    rw [parseStringBody_escape cs ['"'] []]
    rw [parseStringBody.eq_def]
    simp only [reduceIte]
    simp

/-! ## Data model

Runtime values and the object heap on the encoder side, and the wire format
of `serializeComplex` (`serializedObject` / `serializedComplex`). -/

/-- `valueType` of the composite variant. -/
inductive valueType
  | JSONREADY | COMPLEX | BIGINT | SYMBOL | UNDEFINED | NATIVE
deriving DecidableEq, Repr

/-- `objectType` of the composite variant. -/
inductive objectType
  | NORMAL | FUNCTION | ARRAY
deriving DecidableEq, Repr

/-- A JavaScript symbol: an allocation id (identity), the global-registry
key reported by `Symbol.keyFor` (when registered via `Symbol.for`), and its
description. -/
structure JSym where
  id : Nat
  regKey : Option (List Char)
  description : Option (List Char)
deriving DecidableEq, Repr

/-- A JavaScript runtime value. Objects (including arrays and functions) are
references into the heap. -/
inductive JSValue
  | vNull
  | vStr (cs : List Char)
  | vNum (n : JSNumber)
  | vBool (b : Bool)
  | vBigInt (i : Int)
  | vSym (s : JSym)
  | vUndef
  | vObj (r : Nat)
deriving DecidableEq, Repr

/-- An own-property descriptor as returned by
`Object.getOwnPropertyDescriptor`: accessor properties have no `value` and
no `writable` field (`none`). -/
structure JSPropDesc where
  configurable : Bool
  enumerable : Bool
  writable : Option Bool
  value : Option JSValue
  get : Option Nat
  set : Option Nat
deriving DecidableEq, Repr

/-- A property key: a string or a symbol. -/
inductive JSKey
  | str (cs : List Char)
  | sym (s : JSym)
deriving DecidableEq, Repr

/-- A heap object: its JavaScript kind (`Array.isArray` / `typeof` level),
its source text (meaningful for functions, where `toString()` returns it),
its prototype (`none` models a `null` prototype) and its own properties in
`Reflect.ownKeys` order. -/
structure JSObj where
  kind : objectType
  src : List Char
  proto : Option Nat
  props : List (JSKey × JSPropDesc)
deriving DecidableEq, Repr

abbrev Heap := List JSObj

/-! Wire format (the `serializedComplex` payload). -/

/-- `propertyDescriptor.value` is typed `string | number` on the wire. -/
inductive SerVal
  | s (cs : List Char)
  | n (i : Int)
deriving DecidableEq, Repr

/-- Serialized `propertyDescriptor`. -/
structure SerDesc where
  configurable : Bool
  writable : Bool
  enumerable : Bool
  value : SerVal
  get : Int
  set : Int
deriving DecidableEq, Repr

/-- Serialized `propkey` (keyType STRING / NATIVE_SYMBOL / CUSTOM_SYMBOL). -/
inductive SerKey
  | str (cs : List Char)
  | nativeSym (cs : List Char)
  | customSym (j : Int)
deriving DecidableEq, Repr

/-- Serialized `property`. -/
structure SerProp where
  key : SerKey
  type : valueType
  descriptor : SerDesc
deriving DecidableEq, Repr

/-- Serialized `proto` record. -/
structure SerProto where
  native : Bool
  index : Int
deriving DecidableEq, Repr

/-- Serialized object record (`serializedObject`); `funSrc` is the `fun`
field (`fun` is reserved in Lean). -/
structure SerObj where
  type : objectType
  funSrc : Option (List Char)
  proto : SerProto
  props : List SerProp
deriving DecidableEq, Repr

/-- An entry of the `objects` list: a native-registry index or a record. -/
inductive SerEntry
  | native (i : Nat)
  | obj (o : SerObj)
deriving DecidableEq, Repr

/-- `serializedComplex`: the object records plus the symbol-description
table. -/
structure SerComplex where
  objects : List SerEntry
  symbols : List (Option (List Char))
deriving DecidableEq, Repr

/-- The wire envelope `[typeTag, payload]` (kept structural; the outer
`JSON.stringify`/`JSON.parse` round trip of this structure is the identity
and is not re-modelled textually). -/
inductive SerPayload
  | basic (cs : List Char)
  | complex (c : SerComplex)
deriving DecidableEq, Repr

abbrev Envelope := valueType × SerPayload

/-! ## Type classifier and basic codecs -/

/-- `findNativeIndex`: index of an object in the natives registry, `-1` when
absent (or when the value is not an object at all). The registry is the
ambient `natives` array, modelled as a list of heap references. -/
def findNativeIndex (natives : List Nat) (object : JSValue) : Int :=
  match object with
  | .vObj r => jsFindIndex (fun native => native == r) natives
  | _ => -1

/-- `getValueType` of the composite variant. -/
def getValueType (natives : List Nat) (value : JSValue) : valueType :=
  match value with
  | .vNull | .vStr _ | .vNum _ | .vBool _ => .JSONREADY
  | .vBigInt _ => .BIGINT
  | .vSym _ => .SYMBOL
  | .vUndef => .UNDEFINED
  | .vObj _ =>
    if findNativeIndex natives value = -1 then .COMPLEX else .NATIVE

/-- `serializeBasic`. The `SYMBOL` case is `Symbol.keyFor(basic)`, which is
`undefined` for a non-registry symbol; that (ill-typed in the source)
payload is modelled as failure. The `COMPLEX` case falls through to the
`ParameterError` throw. -/
def serializeBasic (natives : List Nat) (type : valueType) (basic : JSValue) :
    Option (List Char) :=
  match type with
  | .JSONREADY =>
    match basic with
    | .vNull => some (jsonStringifyPrim .pnull)
    | .vStr cs => some (jsonStringifyPrim (.pstr cs))
    | .vNum i => some (jsonStringifyPrim (.pnum i))
    | .vBool b => some (jsonStringifyPrim (.pbool b))
    | _ => none
  | .BIGINT =>
    match basic with
    | .vBigInt i => some (intToChars i)
    | _ => none
  | .SYMBOL =>
    match basic with
    | .vSym s => s.regKey
    | _ => none
  | .UNDEFINED => some []
  | .NATIVE => some (intToChars (findNativeIndex natives basic))
  | .COMPLEX => none

/-- A decoded property value: a primitive, a registry symbol
(`Symbol.for`), `undefined`, a reference to an original (native) heap
object, or a reference into the decoder's output table. -/
inductive DVal
  | prim (p : JSPrim)
  | big (i : Int)
  | regSym (cs : List Char)
  | undefinedV
  | nativeRef (r : Nat)
  | outRef (j : Nat)
deriving DecidableEq, Repr

/-- A canonical array index: JavaScript array access by string coerces only
canonical numeric strings to elements. -/
def canonicalIndex (cs : List Char) : Option Nat :=
  match parseNatChars cs with
  | some n => if natToChars n = cs then some n else none
  | none => none

/-- `parseBasic`. `JSONREADY` is `JSON.parse` (throwing on malformed text,
modelled as `none`); `BIGINT` is `BigInt(value)` (`BigInt("")` is `0n`);
`SYMBOL` is `Symbol.for(value)`; `NATIVE` is `natives[value]` (out-of-range
or non-canonical indices give `undefined`); a `COMPLEX` tag falls out of the
switch and yields `undefined`. -/
def parseBasic (natives : List Nat) (type : valueType) (value : List Char) :
    Option DVal :=
  match type with
  | .JSONREADY => (jsonParsePrim value).map .prim
  | .BIGINT =>
    if value.isEmpty then some (.big 0) else (parseIntChars value).map .big
  | .SYMBOL => some (.regSym value)
  | .UNDEFINED => some .undefinedV
  | .NATIVE =>
    some (match (canonicalIndex value).bind (fun n => natives.get? n) with
      | some r => .nativeRef r
      | none => .undefinedV)
  | .COMPLEX => some .undefinedV

/-! ## Function / class codec (`getFunctionString` / `parseFunctionString`) -/

/-- A reconstructed callable: a class compiled from its source via `eval`,
or a plain function rebuilt by `Function(...params, body)`. -/
inductive Callable
  | cls (src : List Char)
  | fn (params : List Char) (body : List Char)
deriving DecidableEq, Repr

/-- JavaScript `\s` (the whitespace class), restricted to ASCII. -/
def jsSpace (c : Char) : Bool :=
  c == ' ' || c == '\t' || c == '\n' || c == Char.ofNat 11 ||
  c == Char.ofNat 12 || c == Char.ofNat 13

/-- `str.match(/^\s*class/) !== null`. -/
def startsClass (str : List Char) : Bool :=
  (str.dropWhile jsSpace).take 5 == ['c', 'l', 'a', 's', 's']

/-- `str.match(/(?<=^[^(]*\()[^)]*/)?.[0]`: everything after the first `(`
up to (excluding) the next `)` (or the end); `none` when the string has no
`(`. -/
def paramExtract (str : List Char) : Option (List Char) :=
  match str.dropWhile (fun c => !(c == '(')) with
  | [] => none
  | _ :: after => some (after.takeWhile (fun c => !(c == ')')))

/-- `str.match(/(?<=^[^{]*{)[^]*(?=}[^}]*$)/)?.[0]`: everything after the
first `{` up to (excluding) the last `}`; `none` when there is no `{`, or
no `}` after the first `{`. -/
def bodyExtract (str : List Char) : Option (List Char) :=
  match str.dropWhile (fun c => !(c == '{')) with
  | [] => none
  | _ :: after =>
    match after.reverse.dropWhile (fun c => !(c == '}')) with
    | [] => none
    | _ :: revBody => some revBody.reverse

/-- `[...paramstr.matchAll(/[^\s,]/g)]`: the non-space, non-comma
characters, one match per character. -/
def paramChars (paramstr : List Char) : List Char :=
  paramstr.filter (fun c => !(jsSpace c) && !(c == ','))

/-- `parseFunctionString` of the composite variant. The whole body is
wrapped in try/catch and returns `null` on any exception; the `eval` step
for classes and the `Function` constructor are modelled by the oracles
`classCompiles` and `funCompiles` (a `false` verdict is a compilation
exception, swallowed by the catch). -/
def parseFunctionString (funCompiles : List Char → List Char → Bool)
    (classCompiles : List Char → Bool) (str : List Char) : Option Callable :=
  if startsClass str then
    if classCompiles str then some (.cls str) else none
  else
    match paramExtract str with
    | none => none
    | some paramstr =>
      match bodyExtract str with
      | none => none
      | some body =>
        if funCompiles (paramChars paramstr) body then
          some (.fn (paramChars paramstr) body)
        else none

/-- `getFunctionString`: `object.toString()`, the stored source text. -/
def getFunctionString (object : JSObj) : List Char := object.src

/-! ## Graph walker / encoder (`serializeComplex`) -/

/-- The per-call encoder state: the identity table `objects` (index 0 is
the root) and the custom-symbol table `symbols`. -/
structure EncState where
  objects : List Nat
  symbols : List JSym
deriving DecidableEq, Repr

/-- `findOrAddObject`: get the index of an object in the identity table,
adding it when necessary. -/
def findOrAddObject (st : EncState) (object : Nat) : Nat × EncState :=
  let r := findOrAdd st.objects object
  (r.1, { st with objects := r.2 })

/-- `findOrAddSymbol`: get the index of a symbol in the symbol table,
adding it when necessary. -/
def findOrAddSymbol (st : EncState) (sym : JSym) : Nat × EncState :=
  let r := findOrAdd st.symbols sym
  (r.1, { st with symbols := r.2 })

/-- The key-classification step at the head of the property loop of
`serializeComplex`: strings stay strings, symbols with a
`Symbol.keyFor` key become NATIVE_SYMBOL keys, all other symbols are
registered in the symbol table and become CUSTOM_SYMBOL keys. -/
def serializeKey (st : EncState) (key : JSKey) : SerKey × EncState :=
  match key with
  | .str s => (.str s, st)
  | .sym y =>
    match y.regKey with
    | some k => (.nativeSym k, st)
    | none =>
      let r := findOrAddSymbol st y
      (.customSym (Int.ofNat r.1), r.2)

/-- The accessor-registration step of the property loop: when the raw
descriptor carries a getter (or setter) function, register it in the
identity table and return its index, else `-1`. -/
def registerAccessor (st : EncState) (accessor : Option Nat) : Int × EncState :=
  match accessor with
  | some f =>
    let r := findOrAddObject st f
    (Int.ofNat r.1, r.2)
  | none => (-1, st)

/-- The value-registration step of the property loop: a COMPLEX-typed
value is registered in the identity table, anything else gets index `-1`. -/
def registerValue (st : EncState) (type : valueType) (value : JSValue) :
    Int × EncState :=
  if type = .COMPLEX then
    match value with
    | .vObj vr =>
      let r := findOrAddObject st vr
      (Int.ofNat r.1, r.2)
    | _ => (-1, st)
  else (-1, st)

/-- The body of the property loop of `serializeComplex`: classify the key,
register getter and setter (in that order) in the identity table, classify
the value, register it when complex, and emit the serialized property. -/
def serializeProp (natives : List Nat) (st : EncState) (key : JSKey)
    (rawDescriptor : JSPropDesc) : Option (SerProp × EncState) :=
  let ks := serializeKey st key
  let keyprop := ks.1
  let gs := registerAccessor ks.2 rawDescriptor.get
  let getterIndex := gs.1
  let ss := registerAccessor gs.2 rawDescriptor.set
  let setterIndex := ss.1
  let value := rawDescriptor.value.getD .vUndef
  let type := getValueType natives value
  let vs := registerValue ss.2 type value
  let valueIndex := vs.1
  let st4 := vs.2
  let valueField : Option SerVal :=
    if getterIndex = -1 ∧ setterIndex = -1 then
      if valueIndex = -1 then (serializeBasic natives type value).map .s
      else some (.n valueIndex)
    else some (.n (-1))
  valueField.map fun v =>
    ({ key := keyprop, type := type,
       descriptor :=
        { configurable := rawDescriptor.configurable,
          writable := rawDescriptor.writable.getD true,
          enumerable := rawDescriptor.enumerable,
          value := v, get := getterIndex, set := setterIndex } }, st4)

/-- The property loop of `serializeComplex` over `Reflect.ownKeys`. -/
def serializeProps (natives : List Nat) (st : EncState) :
    List (JSKey × JSPropDesc) → Option (List SerProp × EncState)
  | [] => some ([], st)
  | (k, d) :: rest =>
    (serializeProp natives st k d).bind fun pr =>
      (serializeProps natives pr.2 rest).map fun rr => (pr.1 :: rr.1, rr.2)

/-- One iteration of the worklist loop of `serializeComplex`: a native
object is emitted as its registry index with no traversal; otherwise the
object's kind, source text, prototype link and properties are serialized
(the prototype is registered in the identity table before the properties
are walked). A `null` prototype would crash the source on the next
iteration (`Object.getPrototypeOf(null)` throws) and is modelled as
failure. -/
def serializeObject (natives : List Nat) (heap : Heap) (st : EncState)
    (r : Nat) : Option (SerEntry × EncState) :=
  let nativeIndex := findNativeIndex natives (.vObj r)
  if nativeIndex ≠ -1 then some (.native nativeIndex.toNat, st)
  else
    match heap.get? r with
    | none => none
    | some current =>
      let type := current.kind
      let funSrc : Option (List Char) :=
        if type = .FUNCTION then some (getFunctionString current) else none
      match current.proto with
      | none => none
      | some p =>
        let pin := findNativeIndex natives (.vObj p)
        let ps : Bool × Int × EncState :=
          if pin ≠ -1 then (true, pin, st)
          else
            let r := findOrAddObject st p
            (false, Int.ofNat r.1, r.2)
        (serializeProps natives ps.2.2 current.props).map fun pr =>
          (.obj { type := type, funSrc := funSrc,
                  proto := { native := ps.1, index := ps.2.1 },
                  props := pr.1 }, pr.2)

/-- The worklist loop of `serializeComplex`: iterate by position over the
growing identity table. The fuel argument only bounds the number of
iterations; `heap.length + 1` is always sufficient for a well-formed heap,
because the table is duplicate-free and only holds heap references. -/
def serLoop (natives : List Nat) (heap : Heap) :
    Nat → Nat → EncState → List SerEntry → Option (List SerEntry × EncState)
  | 0, pos, st, parsed =>
    if pos < st.objects.length then none else some (parsed, st)
  | fuel + 1, pos, st, parsed =>
    match st.objects.get? pos with
    | none => some (parsed, st)
    | some r =>
      (serializeObject natives heap st r).bind fun es =>
        serLoop natives heap fuel (pos + 1) es.2 (parsed ++ [es.1])

/-- `serializeComplex`: run the worklist starting from `[complex]` and pair
the object records with the symbol-description table. -/
def serializeComplex (natives : List Nat) (heap : Heap) (complex : Nat) :
    Option SerComplex :=
  (serLoop natives heap (heap.length + 1) 0 ⟨[complex], []⟩ []).map fun pr =>
    { objects := pr.1, symbols := pr.2.symbols.map (fun sym => sym.description) }

/-- `serialize`: classify the root and dispatch to the complex or the basic
path. -/
def serialize (natives : List Nat) (heap : Heap) (something : JSValue) :
    Option Envelope :=
  let type := getValueType natives something
  if type = .COMPLEX then
    match something with
    | .vObj r => (serializeComplex natives heap r).map fun c => (type, .complex c)
    | _ => none
  else
    (serializeBasic natives type something).map fun cs => (type, .basic cs)

/-! ## Reconstructor / decoder (`parseComplex`) -/

/-- A decoded property key: a string, a registry symbol (`Symbol.for`), or
one of the fresh symbols materialized from the symbol table (identified by
its table index, carrying the recorded description). Fresh symbols are a
separate constructor and hence never equal to any encoder-side symbol. -/
inductive DecKey
  | str (cs : List Char)
  | regSym (cs : List Char)
  | customSym (j : Nat) (d : Option (List Char))
deriving DecidableEq, Repr

/-- A property descriptor installed by `Object.defineProperty` during
pass 2: fields absent from the source descriptor literal are `none`. -/
structure DecDesc where
  configurable : Bool
  enumerable : Bool
  writable : Option Bool
  value : Option DVal
  get : Option DVal
  set : Option DVal
deriving DecidableEq, Repr

/-- A wired prototype link: a native object, an output-table entry, or
`null` (the value of a record whose callable failed to parse). -/
inductive DProto
  | pnative (r : Nat)
  | pout (j : Nat)
  | pnull
deriving DecidableEq, Repr

/-- A shell allocated in pass 1 and populated in pass 2. -/
structure DecShell where
  kind : objectType
  callable : Option Callable
  props : List (DecKey × DecDesc)
  protoLink : Option DProto
deriving DecidableEq, Repr

/-- An entry of the decoder's output table: a native object resolved from
the registry, a constructed shell, the `null` produced by an unparsable
callable, or the `undefined` produced by an out-of-range registry index. -/
inductive DecNode
  | nRef (r : Nat)
  | shell (sh : DecShell)
  | nullFun
  | undefNode
deriving DecidableEq, Repr

def mkSymbolsAux (j : Nat) : List (Option (List Char)) → List (Nat × Option (List Char))
  | [] => []
  | d :: rest => (j, d) :: mkSymbolsAux (j + 1) rest

/-- The symbol pass of `parseComplex`: one fresh symbol per table entry, in
order, carrying the recorded description (`Symbol()` for `null` entries,
`Symbol(desc)` otherwise). Freshness is modelled by indexing the
allocations. -/
def mkSymbols (descs : List (Option (List Char))) : List (Nat × Option (List Char)) :=
  mkSymbolsAux 0 descs

/-- Key resolution during pass 2: STRING keys stay strings, NATIVE_SYMBOL
keys are `Symbol.for(value)`, CUSTOM_SYMBOL keys are `symbols[value]`. An
out-of-range index yields `undefined`, which `Object.defineProperty`
coerces to the string key `"undefined"`. -/
def resolveKey (symbols : List (Nat × Option (List Char))) (key : SerKey) : DecKey :=
  match key with
  | .str s => .str s
  | .nativeSym k => .regSym k
  | .customSym j =>
    match jsArrGet symbols j with
    | some fs => .customSym fs.1 fs.2
    | none => .str ['u', 'n', 'd', 'e', 'f', 'i', 'n', 'e', 'd']

/-- The own properties of a fresh `[]`: a non-configurable `length`. -/
def arrayInitProps : List (DecKey × DecDesc) :=
  [(.str ['l', 'e', 'n', 'g', 't', 'h'],
    { configurable := false, enumerable := false, writable := some true,
      value := some (.prim (.pnum (.finite 0))), get := none, set := none })]

/-- Pass 1 of `parseComplex`: allocate one output entry per record. A
number entry resolves through the registry (`natives[n]`, `undefined` when
out of range); a NORMAL record gets `{}`; an ARRAY record gets `[]`; a
FUNCTION record gets `parseFunctionString(fun)`, which is `null` when the
source is unparsable. A FUNCTION record with a `null` source crashes before
the try/catch (`str.match` on `null` throws) and is modelled as failure.
The intrinsic own properties of a constructed function (`length`, `name`,
`prototype`) are not modelled; no claim depends on them. -/
def mkShell (funCompiles : List Char → List Char → Bool)
    (classCompiles : List Char → Bool) (natives : List Nat)
    (entry : SerEntry) : Option DecNode :=
  match entry with
  | .native n =>
    some (match natives.get? n with
      | some r => .nRef r
      | none => .undefNode)
  | .obj o =>
    match o.type with
    | .NORMAL => some (.shell ⟨.NORMAL, none, [], none⟩)
    | .ARRAY => some (.shell ⟨.ARRAY, none, arrayInitProps, none⟩)
    | .FUNCTION =>
      match o.funSrc with
      | none => none
      | some cs =>
        some (match parseFunctionString funCompiles classCompiles cs with
          | some cal => .shell ⟨.FUNCTION, some cal, [], none⟩
          | none => .nullFun)

def pass1 (funCompiles : List Char → List Char → Bool)
    (classCompiles : List Char → Bool) (natives : List Nat) :
    List SerEntry → Option (List DecNode)
  | [] => some []
  | e :: rest =>
    (mkShell funCompiles classCompiles natives e).bind fun node =>
      (pass1 funCompiles classCompiles natives rest).map fun out => node :: out

/-- The value of `output[j]` as a JavaScript value: a native object, the
new shell object (identified by its table index), `null`, or `undefined`. -/
def nodeVal (node : DecNode) (j : Nat) : DVal :=
  match node with
  | .nRef r => .nativeRef r
  | .shell _ => .outRef j
  | .nullFun => .prim .pnull
  | .undefNode => .undefinedV

/-- `output[i]` for the accessor indices of a descriptor (`undefined` when
out of range). -/
def accessorVal (out : List DecNode) (i : Int) : DVal :=
  match jsArrGet out i with
  | some node => nodeVal node i.toNat
  | none => .undefinedV

/-- `output[prop.descriptor.value]` for a COMPLEX-typed data property. A
string-typed wire value indexes the output array with JavaScript's
canonical-numeric-string coercion. -/
def valueFromTable (out : List DecNode) (sv : SerVal) : DVal :=
  match sv with
  | .n i => accessorVal out i
  | .s cs =>
    match canonicalIndex cs with
    | some n =>
      match out.get? n with
      | some node => nodeVal node n
      | none => .undefinedV
    | none => .undefinedV

/-- `Object.defineProperty` accepts an accessor field only when it is
`undefined` or callable (a function shell or a native function). -/
def validAccessor (heap : Heap) (out : List DecNode) : Option DVal → Bool
  | none => true
  | some v =>
    match v with
    | .undefinedV => true
    | .nativeRef r =>
      match heap.get? r with
      | some o => o.kind == .FUNCTION
      | none => false
    | .outRef j =>
      match out.get? j with
      | some (.shell sh) => sh.kind == .FUNCTION
      | _ => false
    | _ => false

/-- `Object.getOwnPropertyDescriptor` on a shell. -/
def getOwnPropDesc (props : List (DecKey × DecDesc)) (key : DecKey) : Option DecDesc :=
  (props.find? (fun e => decide (e.1 = key))).map (fun e => e.2)

/-- `Object.defineProperty` on a shell: redefine in place (property order
is preserved) or append a new property. -/
def setProp (props : List (DecKey × DecDesc)) (key : DecKey) (d : DecDesc) :
    List (DecKey × DecDesc) :=
  if props.any (fun e => decide (e.1 = key)) then
    props.map (fun e => if e.1 = key then (key, d) else e)
  else props ++ [(key, d)]

/-- `parseBasic` applied to a wire value of type `string | number`: a
number is coerced to its decimal string by the basic parsers. -/
def parseBasicSV (natives : List Nat) (type : valueType) (sv : SerVal) : Option DVal :=
  match sv with
  | .s cs => parseBasic natives type cs
  | .n i => parseBasic natives type (intToChars i)

/-- The descriptor construction and `Object.defineProperty` call of pass 2:
accessor indices different from `-1` are resolved through the output table;
only when both are `-1` are `writable` and `value` filled in
(COMPLEX-typed values resolve through the output table, anything else
through `parseBasic`). `Object.defineProperty` throws when a present
accessor field is neither callable nor `undefined`. -/
def parseDefine (natives : List Nat) (heap : Heap) (out : List DecNode)
    (sh : DecShell) (prop : SerProp) (key : DecKey) : Option DecShell :=
  let setF : Option DVal :=
    if prop.descriptor.set ≠ -1 then some (accessorVal out prop.descriptor.set)
    else none
  let getF : Option DVal :=
    if prop.descriptor.get ≠ -1 then some (accessorVal out prop.descriptor.get)
    else none
  let dataStep : Option (Option Bool × Option DVal) :=
    if prop.descriptor.set = -1 ∧ prop.descriptor.get = -1 then
      if prop.type = .COMPLEX then
        some (some prop.descriptor.writable,
          some (valueFromTable out prop.descriptor.value))
      else
        (parseBasicSV natives prop.type prop.descriptor.value).map fun v =>
          (some prop.descriptor.writable, some v)
    else some (none, none)
  dataStep.bind fun wv =>
    let descriptor : DecDesc :=
      { configurable := prop.descriptor.configurable,
        enumerable := prop.descriptor.enumerable,
        writable := wv.1, value := wv.2, get := getF, set := setF }
    if validAccessor heap out getF ∧ validAccessor heap out setF then
      some { sh with props := setProp sh.props key descriptor }
    else none

/-- One property of pass 2: resolve the key; when the shell already has a
non-configurable property at that key, skip the definition (the
`continue`); otherwise define the property. -/
def parseProp (natives : List Nat) (heap : Heap)
    (symbols : List (Nat × Option (List Char))) (out : List DecNode)
    (sh : DecShell) (prop : SerProp) : Option DecShell :=
  let key := resolveKey symbols prop.key
  match getOwnPropDesc sh.props key with
  | some existingDescriptor =>
    if existingDescriptor.configurable = false then some sh
    else parseDefine natives heap out sh prop key
  | none => parseDefine natives heap out sh prop key

/-- The property loop of pass 2 for one record. -/
def parseProps (natives : List Nat) (heap : Heap)
    (symbols : List (Nat × Option (List Char))) (out : List DecNode)
    (sh : DecShell) : List SerProp → Option DecShell
  | [] => some sh
  | p :: rest =>
    (parseProp natives heap symbols out sh p).bind fun sh' =>
      parseProps natives heap symbols out sh' rest

/-- `Object.setPrototypeOf(output[i], ...)`: the prototype argument is
`natives[index]` or `output[index]`; an `undefined` argument throws. -/
def resolveProto (natives : List Nat) (out : List DecNode) (pr : SerProto) :
    Option DProto :=
  if pr.native then
    match jsArrGet natives pr.index with
    | some r => some (.pnative r)
    | none => none
  else
    match jsArrGet out pr.index with
    | some .nullFun => some .pnull
    | some .undefNode => none
    | some _ => some (.pout pr.index.toNat)
    | none => none

/-- Pass 2 for one record: a record whose pass-1 entry is not an object
(the `null` of a failed callable) throws on the first property read or on
`Object.setPrototypeOf`. -/
def populateObj (natives : List Nat) (heap : Heap)
    (symbols : List (Nat × Option (List Char))) (out : List DecNode)
    (i : Nat) (so : SerObj) : Option (List DecNode) :=
  match out.get? i with
  | some (.shell sh) =>
    (parseProps natives heap symbols out sh so.props).bind fun sh' =>
      (resolveProto natives out so.proto).map fun pr =>
        out.set i (.shell { sh' with protoLink := some pr })
  | _ => none

/-- Pass 2 of `parseComplex` in index order; number entries are skipped. -/
def populateAll (natives : List Nat) (heap : Heap)
    (symbols : List (Nat × Option (List Char))) :
    List SerEntry → Nat → List DecNode → Option (List DecNode)
  | [], _, out => some out
  | .native _ :: rest, i, out => populateAll natives heap symbols rest (i + 1) out
  | .obj so :: rest, i, out =>
    (populateObj natives heap symbols out i so).bind fun out' =>
      populateAll natives heap symbols rest (i + 1) out'

/-- `parseComplex`: materialize the symbol table, allocate every shell
(pass 1), then wire every property and prototype (pass 2). The source
returns `output[0]`; the model returns the whole output table, whose entry
0 is the root. -/
def parseComplex (funCompiles : List Char → List Char → Bool)
    (classCompiles : List Char → Bool) (natives : List Nat) (heap : Heap)
    (value : SerComplex) : Option (List DecNode) :=
  let symbols := mkSymbols value.symbols
  (pass1 funCompiles classCompiles natives value.objects).bind fun output =>
    populateAll natives heap symbols value.objects 0 output

/-- The result of `deserialize`: a basic value or the decoded object graph
(the root is output entry 0). -/
inductive DecResult
  | basic (v : DVal)
  | complex (out : List DecNode)
deriving DecidableEq, Repr

/-- `deserialize`: dispatch on the envelope's type tag. -/
def deserialize (funCompiles : List Char → List Char → Bool)
    (classCompiles : List Char → Bool) (natives : List Nat) (heap : Heap)
    (env : Envelope) : Option DecResult :=
  if env.1 = .COMPLEX then
    match env.2 with
    | .complex c =>
      (parseComplex funCompiles classCompiles natives heap c).map .complex
    | .basic _ => none
  else
    match env.2 with
    | .basic cs => (parseBasic natives env.1 cs).map .basic
    | .complex _ => none

/-- Reading a data property of a decoded shell (`x.key` for a data
property). -/
def readDataProp (out : List DecNode) (j : Nat) (key : DecKey) : Option DVal :=
  match out.get? j with
  | some (.shell sh) => (getOwnPropDesc sh.props key).bind (fun d => d.value)
  | _ => none

/-- `n`-fold property chasing `x.key.key...key` through the decoded graph. -/
def chainRead (out : List DecNode) (key : DecKey) : Nat → Option DVal → Option DVal
  | 0, v => v
  | n + 1, v =>
    chainRead out key n (v.bind fun x =>
      match x with
      | .outRef j => readDataProp out j key
      | _ => none)

/-! ## The `src/src/index.mts` variant

This intermediate variant has no custom-symbol table: its registry of
nameable symbols is the set of own properties of the `Symbol` constructor
(`Object.getOwnPropertyNames(Symbol)`), modelled as an association list
from names to symbol identities, and its property loop drops every
symbolic key it cannot name there. Its `getValueType` has no NATIVE
branch. -/

namespace IndexMts

/-- `tryFindSymbol`: the first own property name of `Symbol` whose value is
the given symbol, `null` when there is none. -/
def tryFindSymbol (symbolProps : List (List Char × Nat)) (s : JSym) :
    Option (List Char) :=
  (symbolProps.find? (fun e => decide (e.2 = s.id))).map (fun e => e.1)

/-- `findSymbol`: like `tryFindSymbol` but throwing (`none`) when the
symbol is unknown. -/
def findSymbol (symbolProps : List (List Char × Nat)) (s : JSym) :
    Option (List Char) :=
  tryFindSymbol symbolProps s

/-- `getValueType` of this variant: no registry check, every object is
COMPLEX. -/
def getValueType (value : JSValue) : valueType :=
  match value with
  | .vNull | .vStr _ | .vNum _ | .vBool _ => .JSONREADY
  | .vBigInt _ => .BIGINT
  | .vSym _ => .SYMBOL
  | .vUndef => .UNDEFINED
  | .vObj _ => .COMPLEX

/-- `serializeBasic` of this variant: symbols go through `findSymbol`
(throwing on unknown symbols); the NATIVE case is unreachable from this
variant's `getValueType`. -/
def serializeBasic (symbolProps : List (List Char × Nat)) (type : valueType)
    (basic : JSValue) : Option (List Char) :=
  match type with
  | .JSONREADY =>
    match basic with
    | .vNull => some (jsonStringifyPrim .pnull)
    | .vStr cs => some (jsonStringifyPrim (.pstr cs))
    | .vNum i => some (jsonStringifyPrim (.pnum i))
    | .vBool b => some (jsonStringifyPrim (.pbool b))
    | _ => none
  | .BIGINT =>
    match basic with
    | .vBigInt i => some (intToChars i)
    | _ => none
  | .SYMBOL =>
    match basic with
    | .vSym s => findSymbol symbolProps s
    | _ => none
  | .UNDEFINED => some []
  | _ => none

/-- The serialized property key of this variant:
`{symbol : boolean, value : string}`. -/
structure IMKey where
  symbol : Bool
  value : List Char
deriving DecidableEq, Repr

/-- A serialized property of this variant. -/
structure IMProp where
  key : IMKey
  type : valueType
  descriptor : SerDesc
deriving DecidableEq, Repr

/-- Whether the property loop keeps a key: every string key, and every
symbolic key that `tryFindSymbol` can name; any other symbolic key is
skipped (`if (symbolName === null) continue`). -/
def keptKey (symbolProps : List (List Char × Nat)) (key : JSKey) : Bool :=
  match key with
  | .str _ => true
  | .sym y => (tryFindSymbol symbolProps y).isSome

/-- The serialized form of a kept key. -/
def encodeKey (symbolProps : List (List Char × Nat)) (key : JSKey) : IMKey :=
  match key with
  | .str s => { symbol := false, value := s }
  | .sym y => { symbol := true, value := (findSymbol symbolProps y).getD [] }

/-- The loop body of this variant's property loop, for a kept key:
register getter, setter and complex value in the identity table and emit
the property record. -/
def serializeProp (symbolProps : List (List Char × Nat)) (objects : List Nat)
    (key : JSKey) (rawDescriptor : JSPropDesc) : Option (IMProp × List Nat) :=
  let gs : Int × List Nat :=
    match rawDescriptor.get with
    | some getter =>
      let r := findOrAdd objects getter
      (Int.ofNat r.1, r.2)
    | none => (-1, objects)
  let getterIndex := gs.1
  let o1 := gs.2
  let ss : Int × List Nat :=
    match rawDescriptor.set with
    | some setter =>
      let r := findOrAdd o1 setter
      (Int.ofNat r.1, r.2)
    | none => (-1, o1)
  let setterIndex := ss.1
  let o2 := ss.2
  let value := rawDescriptor.value.getD .vUndef
  let type := getValueType value
  let vs : Int × List Nat :=
    if type = .COMPLEX then
      match value with
      | .vObj vr =>
        let r := findOrAdd o2 vr
        (Int.ofNat r.1, r.2)
      | _ => (-1, o2)
    else (-1, o2)
  let valueIndex := vs.1
  let o3 := vs.2
  let valueField : Option SerVal :=
    if getterIndex = -1 ∧ setterIndex = -1 then
      if valueIndex = -1 then (serializeBasic symbolProps type value).map .s
      else some (.n valueIndex)
    else some (.n (-1))
  let keyField : Option IMKey :=
    match key with
    | .str s => some { symbol := false, value := s }
    | .sym y => (findSymbol symbolProps y).map fun k => { symbol := true, value := k }
  valueField.bind fun v =>
    keyField.map fun kf =>
      ({ key := kf, type := type,
         descriptor :=
          { configurable := rawDescriptor.configurable,
            writable := rawDescriptor.writable.getD true,
            enumerable := rawDescriptor.enumerable,
            value := v, get := getterIndex, set := setterIndex } }, o3)

/-- The property loop of this variant over `Reflect.ownKeys`: unnameable
symbolic keys are skipped, every other own property is serialized. -/
def serializeProps (symbolProps : List (List Char × Nat)) (objects : List Nat) :
    List (JSKey × JSPropDesc) → Option (List IMProp × List Nat)
  | [] => some ([], objects)
  | (k, d) :: rest =>
    if keptKey symbolProps k then
      (serializeProp symbolProps objects k d).bind fun pr =>
        (serializeProps symbolProps pr.2 rest).map fun rr => (pr.1 :: rr.1, rr.2)
    else serializeProps symbolProps objects rest

end IndexMts

/-! ## Identity-table invariants -/

theorem findOrAddObject_nodup (st : EncState) (o : Nat)
    (h : st.objects.Nodup) : ((findOrAddObject st o).2).objects.Nodup := by
  simpa [findOrAddObject] using findOrAdd_nodup st.objects o h

theorem serializeKey_objects (st : EncState) (k : JSKey) :
    (serializeKey st k).2.objects = st.objects := by
  cases k with
  | str s => rfl
  | sym y =>
    cases h : y.regKey with
    | some k => simp [serializeKey, h]
    | none => simp [serializeKey, h, findOrAddSymbol]

theorem registerAccessor_nodup (st : EncState) (acc : Option Nat)
    (h : st.objects.Nodup) : (registerAccessor st acc).2.objects.Nodup := by
  cases acc with
  | some f => simpa [registerAccessor] using findOrAddObject_nodup st f h
  | none => simpa [registerAccessor] using h

theorem registerValue_nodup (st : EncState) (type : valueType) (value : JSValue)
    (h : st.objects.Nodup) : (registerValue st type value).2.objects.Nodup := by
  rw [registerValue.eq_def]
  by_cases ht : type = .COMPLEX
  · rw [if_pos ht]
    cases value with
    | vNull => exact h
    | vStr cs => exact h
    | vNum i => exact h
    | vBool b => exact h
    | vBigInt i => exact h
    | vSym s => exact h
    | vUndef => exact h
    | vObj vr => simpa using findOrAddObject_nodup st vr h
  · rw [if_neg ht]; exact h

theorem serializeProp_nodup (natives : List Nat) (st : EncState) (k : JSKey)
    (d : JSPropDesc) (pr : SerProp × EncState)
    (h : serializeProp natives st k d = some pr) (hn : st.objects.Nodup) :
    pr.2.objects.Nodup := by
  rw [serializeProp] at h
  rcases Option.map_eq_some'.mp h with ⟨v, -, hpr⟩
  have h1 : ((serializeKey st k).2).objects.Nodup := by
    rw [serializeKey_objects]; exact hn
  have h2 := registerAccessor_nodup (serializeKey st k).2 d.get h1
  have h3 := registerAccessor_nodup (registerAccessor (serializeKey st k).2 d.get).2 d.set h2
  have h4 := registerValue_nodup
    (registerAccessor (registerAccessor (serializeKey st k).2 d.get).2 d.set).2
    (getValueType natives (d.value.getD .vUndef)) (d.value.getD .vUndef) h3
  rw [← hpr] at *
  exact h4

theorem serializeProps_nodup (natives : List Nat) :
    ∀ (props : List (JSKey × JSPropDesc)) (st : EncState)
      (pr : List SerProp × EncState),
      serializeProps natives st props = some pr → st.objects.Nodup →
      pr.2.objects.Nodup := by
  intro props
  induction props with
  | nil =>
    intro st pr h hn
    rw [serializeProps] at h
    cases h
    exact hn
  | cons kd rest ih =>
    intro st pr h hn
    rw [serializeProps] at h
    rcases Option.bind_eq_some.mp h with ⟨p1, hp1, h2⟩
    rcases Option.map_eq_some'.mp h2 with ⟨rr, hrr, hpr⟩
    have hn1 := serializeProp_nodup natives st kd.1 kd.2 p1 hp1 hn
    have hn2 := ih p1.2 rr hrr hn1
    rw [← hpr]
    exact hn2

theorem serializeObject_nodup (natives : List Nat) (heap : Heap)
    (st : EncState) (r : Nat) (es : SerEntry × EncState)
    (h : serializeObject natives heap st r = some es)
    (hn : st.objects.Nodup) : es.2.objects.Nodup := by
  rw [serializeObject] at h
  by_cases hni : findNativeIndex natives (.vObj r) ≠ -1
  · rw [if_pos hni] at h
    cases h
    exact hn
  · rw [if_neg hni] at h
    split at h
    · simp at h
    next current heq =>
      split at h
      · simp at h
      next p hp =>
        rcases Option.map_eq_some'.mp h with ⟨pr, hpr, hes⟩
        have hst2 : (if findNativeIndex natives (.vObj p) ≠ -1
            then (true, findNativeIndex natives (.vObj p), st)
            else (false, Int.ofNat (findOrAddObject st p).1,
              (findOrAddObject st p).2)).2.2.objects.Nodup := by
          by_cases hpn : findNativeIndex natives (.vObj p) ≠ -1
          · rw [if_pos hpn]; exact hn
          · rw [if_neg hpn]
            exact findOrAddObject_nodup st p hn
        have hfin := serializeProps_nodup natives current.props _ pr hpr hst2
        rw [← hes]
        exact hfin

theorem serLoop_nodup (natives : List Nat) (heap : Heap) :
    ∀ (fuel pos : Nat) (st : EncState) (parsed : List SerEntry)
      (res : List SerEntry × EncState),
      serLoop natives heap fuel pos st parsed = some res →
      st.objects.Nodup → res.2.objects.Nodup := by
  intro fuel
  induction fuel with
  | zero =>
    intro pos st parsed res h hn
    rw [serLoop] at h
    by_cases hc : pos < st.objects.length
    · rw [if_pos hc] at h; cases h
    · rw [if_neg hc] at h; cases h; exact hn
  | succ f ih =>
    intro pos st parsed res h hn
    rw [serLoop] at h
    cases hg : st.objects.get? pos with
    | none => rw [hg] at h; cases h; exact hn
    | some r =>
      rw [hg] at h
      rcases Option.bind_eq_some.mp h with ⟨es, hes, h2⟩
      exact ih (pos + 1) es.2 (parsed ++ [es.1]) res h2
        (serializeObject_nodup natives heap st r es hes hn)

/-- C2. Identity-table exactly-once invariant: `findOrAdd` checks
membership by reference identity and, for a value already present, returns
its unique existing index without growing the table (the back-reference
case, so the object is never traversed again); the index always points at
the value; a duplicate-free table stays duplicate-free; and the identity
table built by the whole worklist loop of `serializeComplex` (whose every
mutation goes through `findOrAdd`) is duplicate-free, so every
distinct-by-reference complex object reachable from the root receives
exactly one index. -/
theorem identity_table_exactly_once :
    (∀ (l : List Nat) (v : Nat), v ∈ l →
      findOrAdd l v = ((jsFindIndex (fun x => x == v) l).toNat, l)) ∧
    (∀ (l : List Nat) (v : Nat),
      (findOrAdd l v).2.get? (findOrAdd l v).1 = some v) ∧
    (∀ (l : List Nat) (v : Nat), l.Nodup → (findOrAdd l v).2.Nodup) ∧
    (∀ (natives : List Nat) (heap : Heap) (fuel pos : Nat) (st : EncState)
      (parsed : List SerEntry) (res : List SerEntry × EncState),
      serLoop natives heap fuel pos st parsed = some res →
      st.objects.Nodup → res.2.objects.Nodup) :=
  ⟨fun l v hv => findOrAdd_mem l v hv,
   fun l v => findOrAdd_get l v,
   fun l v h => findOrAdd_nodup l v h,
   fun natives heap fuel pos st parsed res h hn =>
     serLoop_nodup natives heap fuel pos st parsed res h hn⟩

/-! ## Two-pass structure of the decoder -/

theorem pass1_length (fc : List Char → List Char → Bool)
    (cc : List Char → Bool) (natives : List Nat) :
    ∀ (entries : List SerEntry) (out : List DecNode),
      pass1 fc cc natives entries = some out → out.length = entries.length := by
  intro entries
  induction entries with
  | nil =>
    intro out h
    rw [pass1] at h
    cases h
    rfl
  | cons e rest ih =>
    intro out h
    rw [pass1] at h
    rcases Option.bind_eq_some.mp h with ⟨node, -, h2⟩
    rcases Option.map_eq_some'.mp h2 with ⟨out', hout', hcons⟩
    rw [← hcons]
    simp [ih out' hout']

theorem populateObj_length (natives : List Nat) (heap : Heap)
    (symbols : List (Nat × Option (List Char))) (out : List DecNode)
    (i : Nat) (so : SerObj) (out' : List DecNode)
    (h : populateObj natives heap symbols out i so = some out') :
    out'.length = out.length := by
  rw [populateObj] at h
  split at h
  · rcases Option.bind_eq_some.mp h with ⟨sh', -, h2⟩
    rcases Option.map_eq_some'.mp h2 with ⟨pr, -, hset⟩
    rw [← hset]
    simp
  · simp at h

theorem populateAll_length (natives : List Nat) (heap : Heap)
    (symbols : List (Nat × Option (List Char))) :
    ∀ (entries : List SerEntry) (i : Nat) (out out' : List DecNode),
      populateAll natives heap symbols entries i out = some out' →
      out'.length = out.length := by
  intro entries
  induction entries with
  | nil =>
    intro i out out' h
    rw [populateAll] at h
    cases h
    rfl
  | cons e rest ih =>
    intro i out out' h
    cases e with
    | native n =>
      rw [populateAll] at h
      exact ih (i + 1) out out' h
    | obj so =>
      rw [populateAll] at h
      rcases Option.bind_eq_some.mp h with ⟨mid, hmid, h2⟩
      rw [ih (i + 1) mid out' h2]
      exact populateObj_length natives heap symbols out i so mid hmid

/-- Pass 1 allocates exactly one output entry (shell, native resolution,
null callable or undefined) per record, and pass 2 never changes the
count: the decoded table has one entry per record. -/
theorem parseComplex_length (fc : List Char → List Char → Bool)
    (cc : List Char → Bool) (natives : List Nat) (heap : Heap)
    (env : SerComplex) (out : List DecNode)
    (h : parseComplex fc cc natives heap env = some out) :
    out.length = env.objects.length := by
  rw [parseComplex] at h
  rcases Option.bind_eq_some.mp h with ⟨out0, hout0, h2⟩
  rw [populateAll_length natives heap (mkSymbols env.symbols) env.objects 0 out0 out h2]
  exact pass1_length fc cc natives env.objects out0 hout0

/-! ## Concrete fixtures -/

/-- A compilation oracle under which every extracted function compiles. -/
def alwaysFun : List Char → List Char → Bool := fun _ _ => true

/-- A compilation oracle under which every class source compiles. -/
def alwaysCls : List Char → Bool := fun _ => true

/-- The heap of the spec's cycle example: object 0 is a plain object whose
own property `name` holds object 0 itself (with the given descriptor
flags); object 1 plays the role of `Object.prototype` and is registered as
native index 0. -/
def cycleHeap (name : List Char) (c e w : Bool) : Heap :=
  [ { kind := .NORMAL, src := [], proto := some 1,
      props := [(.str name,
        { configurable := c, enumerable := e, writable := some w,
          value := some (.vObj 0), get := none, set := none })] },
    { kind := .NORMAL, src := [], proto := none, props := [] } ]

def cycleNatives : List Nat := [1]

/-- Chasing a self-referential data property stays at the root, at any
depth. -/
theorem chainRead_fix (out : List DecNode) (key : DecKey)
    (h : readDataProp out 0 key = some (.outRef 0)) :
    ∀ n, chainRead out key n (some (.outRef 0)) = some (.outRef 0) := by
  intro n
  induction n with
  | zero => rfl
  | succ m ih =>
    rw [chainRead]
    have hb : ((some (DVal.outRef 0)).bind fun x =>
        match x with
        | DVal.outRef j => readDataProp out j key
        | _ => none) = readDataProp out 0 key := rfl
    rw [hb, h]
    exact ih

/-- C1. Cycle and forward-reference preservation: the decoder allocates one
shell per record in pass 1 before any property is wired (first conjunct,
for every envelope), and for the cyclic object `a` with `a[name] = a` (any
property name, any descriptor flags) `decode(encode(a))` terminates with a
root `x` satisfying `x[name] === x`, hence every chain
`x[name][name]...[name] === x` at any depth (second conjunct). -/
theorem cycle_roundtrip (name : List Char) (c e w : Bool) :
    (∀ (fc : List Char → List Char → Bool) (cc : List Char → Bool)
      (natives : List Nat) (heap : Heap) (env : SerComplex)
      (out : List DecNode),
      parseComplex fc cc natives heap env = some out →
      out.length = env.objects.length) ∧
    ∃ out,
      (serialize cycleNatives (cycleHeap name c e w) (.vObj 0)).bind
        (deserialize alwaysFun alwaysCls cycleNatives (cycleHeap name c e w))
        = some (.complex out) ∧
      ∀ n : Nat, chainRead out (.str name) n (some (.outRef 0)) = some (.outRef 0) := by
  refine ⟨fun fc cc natives heap env out h =>
    parseComplex_length fc cc natives heap env out h,
    ⟨[.shell ⟨.NORMAL, none,
      [(.str name, ⟨c, e, some w, some (.outRef 0), none, none⟩)],
      some (.pnative 1)⟩], ?_, ?_⟩⟩
  · rfl
  · exact chainRead_fix _ _ (by simp [readDataProp, getOwnPropDesc, List.find?])

/-- Witness for C1: the shell-per-record conjunct applied to a concrete
decode. -/
theorem cycle_roundtrip_witness :
    ([DecNode.shell ⟨.NORMAL, none, [], some (.pnative 1)⟩] : List DecNode).length
      = (SerComplex.mk [.obj ⟨.NORMAL, none, ⟨true, 0⟩, []⟩] []).objects.length :=
  (cycle_roundtrip ['a'] true true true).1 alwaysFun alwaysCls cycleNatives
    (cycleHeap ['a'] true true true) ⟨[.obj ⟨.NORMAL, none, ⟨true, 0⟩, []⟩], []⟩
    [.shell ⟨.NORMAL, none, [], some (.pnative 1)⟩] (by decide)

/-- Witness for C2 at concrete inputs: a present value is found, not
re-added; the returned index resolves to the value; duplicate-freeness is
preserved, also across a full worklist run. -/
theorem identity_table_exactly_once_witness :
    findOrAdd [7] 7 = ((jsFindIndex (fun x => x == 7) [7]).toNat, [7]) ∧
    (findOrAdd [7] 9).2.get? (findOrAdd [7] 9).1 = some 9 ∧
    (findOrAdd [7] 9).2.Nodup ∧
    (EncState.mk [0] []).objects.Nodup :=
  ⟨identity_table_exactly_once.1 [7] 7 (by decide),
   identity_table_exactly_once.2.1 [7] 9,
   identity_table_exactly_once.2.2.1 [7] 9 (by decide),
   identity_table_exactly_once.2.2.2 cycleNatives (cycleHeap ['a'] true true true)
     3 0 ⟨[0], []⟩ []
     ([.obj ⟨.NORMAL, none, ⟨true, 0⟩,
        [⟨.str ['a'], .COMPLEX, ⟨true, true, true, .n 0, -1, -1⟩⟩]⟩],
      ⟨[0], []⟩)
     (by decide) (by decide)⟩

theorem findNativeIndex_eq_neg_one_iff (natives : List Nat) (r : Nat) :
    findNativeIndex natives (.vObj r) = -1 ↔ r ∉ natives := by
  rw [findNativeIndex, jsFindIndex_eq_neg_one_iff]
  constructor
  · intro h hr
    have := h r hr
    simp at this
  · intro h a ha
    simp only [beq_eq_false_iff_ne, ne_eq]
    rintro rfl
    exact h ha

/-- C6. Classifier contract: `getValueType` is a total function (hence
deterministic, one tag per value, and free of side effects, being a pure
function of its arguments); `null`, strings, numbers and booleans map to
JSONREADY; bigints, symbols and `undefined` map to their own tags; and an
object maps to NATIVE exactly when it is found by reference identity in
the registry, otherwise to COMPLEX. -/
theorem classifier_contract (natives : List Nat) :
    (getValueType natives .vNull = .JSONREADY) ∧
    (∀ cs, getValueType natives (.vStr cs) = .JSONREADY) ∧
    (∀ i, getValueType natives (.vNum i) = .JSONREADY) ∧
    (∀ b, getValueType natives (.vBool b) = .JSONREADY) ∧
    (∀ i, getValueType natives (.vBigInt i) = .BIGINT) ∧
    (∀ s, getValueType natives (.vSym s) = .SYMBOL) ∧
    (getValueType natives .vUndef = .UNDEFINED) ∧
    (∀ r, getValueType natives (.vObj r) = .NATIVE ↔ r ∈ natives) ∧
    (∀ r, getValueType natives (.vObj r) = .COMPLEX ↔ r ∉ natives) := by
  refine ⟨rfl, fun _ => rfl, fun _ => rfl, fun _ => rfl, fun _ => rfl,
    fun _ => rfl, rfl, ?_, ?_⟩
  · intro r
    constructor
    · intro h
      by_contra hr
      rw [getValueType,
        if_pos ((findNativeIndex_eq_neg_one_iff natives r).mpr hr)] at h
      exact absurd h (by decide)
    · intro hr
      rw [getValueType,
        if_neg (fun hc => ((findNativeIndex_eq_neg_one_iff natives r).mp hc) hr)]
  · intro r
    constructor
    · intro h
      rw [getValueType] at h
      by_cases hni : findNativeIndex natives (.vObj r) = -1
      · exact (findNativeIndex_eq_neg_one_iff natives r).mp hni
      · rw [if_neg hni] at h
        exact absurd h (by decide)
    · intro hr
      rw [getValueType,
        if_pos ((findNativeIndex_eq_neg_one_iff natives r).mpr hr)]

/-- Witness for C6: an object in the registry classifies as NATIVE, one
outside it as COMPLEX. -/
theorem classifier_contract_witness :
    getValueType [3] (.vObj 3) = .NATIVE ∧ getValueType [3] (.vObj 4) = .COMPLEX :=
  ⟨((classifier_contract [3]).2.2.2.2.2.2.2.1 3).mpr (by decide),
   ((classifier_contract [3]).2.2.2.2.2.2.2.2 4).mpr (by decide)⟩

/-- The JSON-ready primitives as runtime values. -/
def primToJS : JSPrim → JSValue
  | .pnull => .vNull
  | .pbool b => .vBool b
  | .pnum n => .vNum n
  | .pstr cs => .vStr cs

/-- Counterexample to C4 as stated: `Infinity` is a number, so the
classifier routes it through the JSONREADY basic path, but
`JSON.stringify(Infinity)` is the text `null`, hence
`decode(encode(Infinity))` yields `null`, which is not `Infinity`. -/
theorem nonfinite_number_roundtrip_fails :
    getValueType [] (.vNum .posInf) = .JSONREADY ∧
    (serialize [] [] (.vNum .posInf)).bind (deserialize alwaysFun alwaysCls [] [])
      = some (.basic (.prim .pnull)) ∧
    (DecResult.basic (.prim .pnull)) ≠ .basic (.prim (.pnum .posInf)) :=
  ⟨rfl, rfl, by decide⟩

/-- C4 (amended). Primitive round trip: every JSON-ready primitive that is
`null`, a string, a boolean or a finite number is routed through the
JSONREADY basic serialization path by `encode`, and `decode(encode(v)) ==
v` (first conjunct). A non-finite number (`NaN`, `±Infinity`) is also
classified JSONREADY, but `JSON.stringify` emits the text `null` for it,
so `decode(encode(v))` is `null` instead of `v` (second conjunct). -/
theorem primitive_roundtrip :
    (∀ (fc : List Char → List Char → Bool) (cc : List Char → Bool)
      (natives : List Nat) (heap : Heap) (p : JSPrim), jsonFinite p = true →
      getValueType natives (primToJS p) = .JSONREADY ∧
      (serialize natives heap (primToJS p)).bind (deserialize fc cc natives heap)
        = some (.basic (.prim p))) ∧
    (∀ (fc : List Char → List Char → Bool) (cc : List Char → Bool)
      (natives : List Nat) (heap : Heap) (n : JSNumber),
      jsonFinite (.pnum n) = false →
      getValueType natives (.vNum n) = .JSONREADY ∧
      (serialize natives heap (.vNum n)).bind (deserialize fc cc natives heap)
        = some (.basic (.prim .pnull))) := by
  constructor
  · intro fc cc natives heap p hp
    have ht : getValueType natives (primToJS p) = .JSONREADY := by
      cases p <;> rfl
    have hsb : serializeBasic natives .JSONREADY (primToJS p)
        = some (jsonStringifyPrim p) := by
      cases p <;> rfl
    refine ⟨ht, ?_⟩
    have hser : serialize natives heap (primToJS p)
        = some (.JSONREADY, .basic (jsonStringifyPrim p)) := by
      rw [serialize.eq_def]
      simp only [ht, hsb, reduceIte]
      rfl
    rw [hser]
    show deserialize fc cc natives heap (.JSONREADY, .basic (jsonStringifyPrim p)) = _
    rw [deserialize.eq_def]
    simp only [reduceIte]
    show (parseBasic natives .JSONREADY (jsonStringifyPrim p)).map _ = _
    rw [parseBasic, jsonParse_jsonStringify p hp]
    rfl
  · intro fc cc natives heap n hn
    cases n with
    | finite i =>
      rw [show jsonFinite (.pnum (.finite i)) = true from rfl] at hn
      exact absurd hn (by decide)
    | nan => exact ⟨rfl, rfl⟩
    | posInf => exact ⟨rfl, rfl⟩
    | negInf => exact ⟨rfl, rfl⟩

/-- Witness for the amended C4: a concrete finite number round-trips, and
`NaN` decodes to `null`. -/
theorem primitive_roundtrip_witness :
    (getValueType [] (primToJS (.pnum (.finite 3))) = .JSONREADY ∧
     (serialize [] [] (primToJS (.pnum (.finite 3)))).bind
       (deserialize alwaysFun alwaysCls [] [])
       = some (.basic (.prim (.pnum (.finite 3))))) ∧
    (getValueType [] (.vNum .nan) = .JSONREADY ∧
     (serialize [] [] (.vNum .nan)).bind (deserialize alwaysFun alwaysCls [] [])
       = some (.basic (.prim .pnull))) :=
  ⟨primitive_roundtrip.1 alwaysFun alwaysCls [] [] (.pnum (.finite 3)) (by decide),
   primitive_roundtrip.2 alwaysFun alwaysCls [] [] .nan (by decide)⟩

theorem intToChars_nonneg (i : Int) (h : 0 ≤ i) :
    intToChars i = natToChars i.toNat := by
  rw [intToChars, if_neg (by omega)]

theorem canonicalIndex_natToChars (n : Nat) :
    canonicalIndex (natToChars n) = some n := by
  rw [canonicalIndex, parseNat_natToChars]
  simp

/-- C3. Well-known non-duplication round trip: inside the worklist loop a
registry member is emitted as its registry index only, with the state (and
hence the traversal) untouched (first conjunct); pass 1 of decode resolves
a number entry through the registry (second conjunct); and for a root `W`
present by reference in the registry, `decode(encode(W))` yields exactly
the reference `W` — the original object, never a copy (third conjunct). -/
theorem wellknown_roundtrip (fc : List Char → List Char → Bool)
    (cc : List Char → Bool) (natives : List Nat) (heap : Heap) :
    (∀ (st : EncState) (r : Nat), findNativeIndex natives (.vObj r) ≠ -1 →
      serializeObject natives heap st r
        = some (.native (findNativeIndex natives (.vObj r)).toNat, st)) ∧
    (∀ (n : Nat) (r : Nat), natives.get? n = some r →
      mkShell fc cc natives (.native n) = some (.nRef r)) ∧
    (∀ W, W ∈ natives →
      (serialize natives heap (.vObj W)).bind (deserialize fc cc natives heap)
        = some (.basic (.nativeRef W))) := by
  refine ⟨?_, ?_, ?_⟩
  · intro st r h
    rw [serializeObject.eq_def, if_pos h]
  · intro n r h
    rw [mkShell, h]
  · intro W hW
    have hne : jsFindIndex (fun x => x == W) natives ≠ -1 :=
      jsFindIndex_mem _ natives W hW (by simp)
    obtain ⟨hge, a, ha, hpa⟩ := jsFindIndex_spec (fun x => x == W) natives hne
    simp only [beq_iff_eq] at hpa
    rw [hpa] at ha
    have hfi : findNativeIndex natives (.vObj W)
        = jsFindIndex (fun x => x == W) natives := rfl
    have htype : getValueType natives (.vObj W) = .NATIVE := by
      rw [getValueType, if_neg (by rw [hfi]; exact hne)]
    have hser : serialize natives heap (.vObj W)
        = some (.NATIVE, .basic (intToChars (jsFindIndex (fun x => x == W) natives))) := by
      rw [serialize.eq_def]
      simp only [htype, reduceIte]
      rfl
    rw [hser]
    show deserialize fc cc natives heap _ = _
    rw [deserialize.eq_def]
    simp only [reduceIte]
    show (parseBasic natives .NATIVE
      (intToChars (jsFindIndex (fun x => x == W) natives))).map _ = _
    rw [parseBasic, intToChars_nonneg _ hge, canonicalIndex_natToChars]
    show (some (match natives.get? (jsFindIndex (fun x => x == W) natives).toNat with
      | some r => DVal.nativeRef r
      | none => DVal.undefinedV)).map _ = _
    rw [ha]
    rfl

/-- Witness for C3 at a concrete registry, heap and object. -/
theorem wellknown_roundtrip_witness :
    serializeObject cycleNatives (cycleHeap ['a'] true true true) ⟨[0], []⟩ 1
      = some (.native (findNativeIndex cycleNatives (.vObj 1)).toNat, ⟨[0], []⟩) ∧
    mkShell alwaysFun alwaysCls cycleNatives (.native 0) = some (.nRef 1) ∧
    (serialize cycleNatives (cycleHeap ['a'] true true true) (.vObj 1)).bind
      (deserialize alwaysFun alwaysCls cycleNatives (cycleHeap ['a'] true true true))
      = some (.basic (.nativeRef 1)) :=
  ⟨(wellknown_roundtrip alwaysFun alwaysCls cycleNatives
      (cycleHeap ['a'] true true true)).1 ⟨[0], []⟩ 1 (by decide),
   (wellknown_roundtrip alwaysFun alwaysCls cycleNatives
      (cycleHeap ['a'] true true true)).2.1 0 1 (by decide),
   (wellknown_roundtrip alwaysFun alwaysCls cycleNatives
      (cycleHeap ['a'] true true true)).2.2 1 (by decide)⟩

theorem findOrAdd_mem_mono {α : Type} [DecidableEq α] (l : List α) (v x : α)
    (h : x ∈ l) : x ∈ (findOrAdd l v).2 := by
  by_cases hv : v ∈ l
  · rw [findOrAdd_mem l v hv]; exact h
  · rw [findOrAdd_not_mem l v hv]; exact List.mem_append_left _ h

theorem registerAccessor_mem_mono (st : EncState) (acc : Option Nat) (x : Nat)
    (h : x ∈ st.objects) : x ∈ (registerAccessor st acc).2.objects := by
  cases acc with
  | some f => simpa [registerAccessor, findOrAddObject] using findOrAdd_mem_mono _ f x h
  | none => simpa [registerAccessor] using h

theorem registerValue_mem_mono (st : EncState) (type : valueType)
    (value : JSValue) (x : Nat) (h : x ∈ st.objects) :
    x ∈ (registerValue st type value).2.objects := by
  rw [registerValue.eq_def]
  by_cases ht : type = .COMPLEX
  · rw [if_pos ht]
    cases value with
    | vNull => exact h
    | vStr cs => exact h
    | vNum i => exact h
    | vBool b => exact h
    | vBigInt i => exact h
    | vSym s => exact h
    | vUndef => exact h
    | vObj vr => simpa [findOrAddObject] using findOrAdd_mem_mono _ vr x h
  · rw [if_neg ht]; exact h

/-- C5. Accessor fidelity. Encoder: a property whose raw descriptor carries
a getter (first conjunct) or a setter (second conjunct) is serialized with
that accessor function registered in the identity table and its index
recorded in the `get`/`set` field, while the `value` field records `-1`
instead of any snapshotted value. Decoder: a serialized property carrying
an accessor index is installed by `Object.defineProperty` as an accessor
descriptor whose `get`/`set` are resolved by output-table lookup and which
has no `value` and no `writable` field, so the decoded property is still
computed on read (third conjunct). -/
theorem accessor_fidelity :
    (∀ (natives : List Nat) (st : EncState) (key : JSKey) (rd : JSPropDesc)
      (g : Nat), rd.get = some g →
      ∃ pr : SerProp × EncState,
        serializeProp natives st key rd = some pr ∧
        pr.1.descriptor.get
          = Int.ofNat (findOrAddObject (serializeKey st key).2 g).1 ∧
        pr.1.descriptor.value = .n (-1) ∧
        g ∈ pr.2.objects) ∧
    (∀ (natives : List Nat) (st : EncState) (key : JSKey) (rd : JSPropDesc)
      (s0 : Nat), rd.set = some s0 →
      ∃ pr : SerProp × EncState,
        serializeProp natives st key rd = some pr ∧
        pr.1.descriptor.set
          = Int.ofNat (findOrAddObject
              (registerAccessor (serializeKey st key).2 rd.get).2 s0).1 ∧
        pr.1.descriptor.value = .n (-1) ∧
        s0 ∈ pr.2.objects) ∧
    (∀ (natives : List Nat) (heap : Heap) (out : List DecNode) (sh : DecShell)
      (prop : SerProp) (key : DecKey),
      prop.descriptor.get ≠ -1 ∨ prop.descriptor.set ≠ -1 →
      validAccessor heap out (if prop.descriptor.get ≠ -1
        then some (accessorVal out prop.descriptor.get) else none) = true →
      validAccessor heap out (if prop.descriptor.set ≠ -1
        then some (accessorVal out prop.descriptor.set) else none) = true →
      parseDefine natives heap out sh prop key
        = some { sh with
                 props := setProp sh.props key
                   (DecDesc.mk prop.descriptor.configurable
                     prop.descriptor.enumerable none none
                     (if prop.descriptor.get ≠ -1
                       then some (accessorVal out prop.descriptor.get) else none)
                     (if prop.descriptor.set ≠ -1
                       then some (accessorVal out prop.descriptor.set) else none)) }) := by
  refine ⟨?_, ?_, ?_⟩
  · intro natives st key rd g hg
    simp only [serializeProp, hg, registerAccessor]
    rw [if_neg ?hcg]
    case hcg =>
      intro hc
      have h1 := hc.1
      simp only [Int.ofNat_eq_coe] at h1
      omega
    refine ⟨_, rfl, rfl, rfl, ?_⟩
    exact registerValue_mem_mono _ _ _ g
      (registerAccessor_mem_mono _ rd.set g
        (by simpa [findOrAddObject] using
          findOrAdd_mem_result (serializeKey st key).2.objects g))
  · intro natives st key rd s0 hs
    simp only [serializeProp, hs, registerAccessor]
    rw [if_neg ?hcs]
    case hcs =>
      intro hc
      have h1 := hc.2
      simp only [Int.ofNat_eq_coe] at h1
      omega
    refine ⟨_, rfl, rfl, rfl, ?_⟩
    exact registerValue_mem_mono _ _ _ s0
      (by simpa [findOrAddObject] using
        findOrAdd_mem_result (registerAccessor (serializeKey st key).2 rd.get).2.objects s0)
  · intro natives heap out sh prop key hacc hg hs
    rw [parseDefine]
    have hcond : ¬ (prop.descriptor.set = -1 ∧ prop.descriptor.get = -1) := by
      rcases hacc with h | h
      · exact fun hc => h hc.2
      · exact fun hc => h hc.1
    simp only [if_neg hcond]
    show (some ((none : Option Bool), (none : Option DVal))).bind _ = _
    simp only [Option.some_bind]
    rw [if_pos ⟨hg, hs⟩]

/-- A one-function heap used by concrete accessor examples. -/
def funHeap : Heap := [⟨.FUNCTION, [], none, []⟩]

/-- Witness for C5 at concrete inputs: a getter-only property, a
setter-only property, and the decode of a getter-carrying serialized
property onto a fresh shell. -/
theorem accessor_fidelity_witness :
    (∃ pr : SerProp × EncState,
      serializeProp [] ⟨[], []⟩ (.str ['p'])
        ⟨true, false, none, none, some 2, none⟩ = some pr ∧
      pr.1.descriptor.get
        = Int.ofNat (findOrAddObject
            (serializeKey ⟨[], []⟩ (.str ['p'])).2 2).1 ∧
      pr.1.descriptor.value = .n (-1) ∧
      2 ∈ pr.2.objects) ∧
    (∃ pr : SerProp × EncState,
      serializeProp [] ⟨[], []⟩ (.str ['p'])
        ⟨true, false, none, none, none, some 3⟩ = some pr ∧
      pr.1.descriptor.set
        = Int.ofNat (findOrAddObject
            (registerAccessor (serializeKey ⟨[], []⟩ (.str ['p'])).2
              (JSPropDesc.mk true false none none none (some 3)).get).2 3).1 ∧
      pr.1.descriptor.value = .n (-1) ∧
      3 ∈ pr.2.objects) ∧
    parseDefine [] funHeap [.nRef 0] ⟨.NORMAL, none, [], none⟩
      ⟨.str ['p'], .UNDEFINED, ⟨true, true, false, .n (-1), 0, -1⟩⟩ (.str ['p'])
      = some { DecShell.mk .NORMAL none [] none with
               props := setProp [] (.str ['p'])
                 (DecDesc.mk true false none none
                   (if (SerProp.mk (.str ['p']) .UNDEFINED
                        ⟨true, true, false, .n (-1), 0, -1⟩).descriptor.get ≠ -1
                     then some (accessorVal [.nRef 0]
                       (SerProp.mk (.str ['p']) .UNDEFINED
                         ⟨true, true, false, .n (-1), 0, -1⟩).descriptor.get)
                     else none)
                   (if (SerProp.mk (.str ['p']) .UNDEFINED
                        ⟨true, true, false, .n (-1), 0, -1⟩).descriptor.set ≠ -1
                     then some (accessorVal [.nRef 0]
                       (SerProp.mk (.str ['p']) .UNDEFINED
                         ⟨true, true, false, .n (-1), 0, -1⟩).descriptor.set)
                     else none)) } :=
  ⟨accessor_fidelity.1 [] ⟨[], []⟩ (.str ['p'])
      ⟨true, false, none, none, some 2, none⟩ 2 rfl,
   accessor_fidelity.2.1 [] ⟨[], []⟩ (.str ['p'])
      ⟨true, false, none, none, none, some 3⟩ 3 rfl,
   accessor_fidelity.2.2 [] funHeap [.nRef 0] ⟨.NORMAL, none, [], none⟩
      ⟨.str ['p'], .UNDEFINED, ⟨true, true, false, .n (-1), 0, -1⟩⟩ (.str ['p'])
      (Or.inl (by decide)) (by decide) (by decide)⟩

/-- C9. Non-configurable conflict recovery: when the shell already carries
a property at the resolved target key whose existing descriptor is
non-configurable, that single property definition is skipped — the shell is
returned unchanged (first conjunct) and the property loop simply moves on
to the remaining properties (second conjunct). For a key with no existing
property, or an existing configurable one, the property is defined from
the envelope's descriptor (third and fourth conjuncts). -/
theorem nonconfigurable_skip :
    (∀ (natives : List Nat) (heap : Heap)
      (symbols : List (Nat × Option (List Char))) (out : List DecNode)
      (sh : DecShell) (prop : SerProp) (ex : DecDesc),
      getOwnPropDesc sh.props (resolveKey symbols prop.key) = some ex →
      ex.configurable = false →
      parseProp natives heap symbols out sh prop = some sh) ∧
    (∀ (natives : List Nat) (heap : Heap)
      (symbols : List (Nat × Option (List Char))) (out : List DecNode)
      (sh : DecShell) (prop : SerProp) (ex : DecDesc) (rest : List SerProp),
      getOwnPropDesc sh.props (resolveKey symbols prop.key) = some ex →
      ex.configurable = false →
      parseProps natives heap symbols out sh (prop :: rest)
        = parseProps natives heap symbols out sh rest) ∧
    (∀ (natives : List Nat) (heap : Heap)
      (symbols : List (Nat × Option (List Char))) (out : List DecNode)
      (sh : DecShell) (prop : SerProp),
      getOwnPropDesc sh.props (resolveKey symbols prop.key) = none →
      parseProp natives heap symbols out sh prop
        = parseDefine natives heap out sh prop (resolveKey symbols prop.key)) ∧
    (∀ (natives : List Nat) (heap : Heap)
      (symbols : List (Nat × Option (List Char))) (out : List DecNode)
      (sh : DecShell) (prop : SerProp) (ex : DecDesc),
      getOwnPropDesc sh.props (resolveKey symbols prop.key) = some ex →
      ex.configurable = true →
      parseProp natives heap symbols out sh prop
        = parseDefine natives heap out sh prop (resolveKey symbols prop.key)) := by
  refine ⟨?_, ?_, ?_, ?_⟩
  · intro natives heap symbols out sh prop ex hex hc
    rw [parseProp, hex]
    show (if ex.configurable = false then some sh
      else parseDefine natives heap out sh prop (resolveKey symbols prop.key))
      = some sh
    rw [if_pos hc]
  · intro natives heap symbols out sh prop ex rest hex hc
    rw [parseProps, parseProp, hex]
    show ((if ex.configurable = false then some sh
      else parseDefine natives heap out sh prop (resolveKey symbols prop.key)).bind
        fun sh' => parseProps natives heap symbols out sh' rest) = _
    rw [if_pos hc]
    rfl
  · intro natives heap symbols out sh prop hex
    rw [parseProp, hex]
  · intro natives heap symbols out sh prop ex hex hc
    rw [parseProp, hex]
    show (if ex.configurable = false then some sh
      else parseDefine natives heap out sh prop (resolveKey symbols prop.key)) = _
    rw [if_neg (by rw [hc]; exact fun h => by cases h)]

/-- Witness for C9: the non-configurable `length` of a fresh array shell
is skipped and processing continues; a fresh key on a plain shell is
defined. -/
theorem nonconfigurable_skip_witness :
    parseProp [1] (cycleHeap ['a'] true true true) []
      [DecNode.shell ⟨.ARRAY, none, arrayInitProps, none⟩]
      ⟨.ARRAY, none, arrayInitProps, none⟩
      ⟨.str ['l', 'e', 'n', 'g', 't', 'h'], .JSONREADY,
        ⟨true, true, true, .s ['5'], -1, -1⟩⟩
      = some ⟨.ARRAY, none, arrayInitProps, none⟩ ∧
    parseProps [1] (cycleHeap ['a'] true true true) []
      [DecNode.shell ⟨.ARRAY, none, arrayInitProps, none⟩]
      ⟨.ARRAY, none, arrayInitProps, none⟩
      [⟨.str ['l', 'e', 'n', 'g', 't', 'h'], .JSONREADY,
        ⟨true, true, true, .s ['5'], -1, -1⟩⟩]
      = parseProps [1] (cycleHeap ['a'] true true true) []
          [DecNode.shell ⟨.ARRAY, none, arrayInitProps, none⟩]
          ⟨.ARRAY, none, arrayInitProps, none⟩ [] ∧
    parseProp [1] (cycleHeap ['a'] true true true) []
      [DecNode.shell ⟨.ARRAY, none, arrayInitProps, none⟩]
      ⟨.NORMAL, none, [], none⟩
      ⟨.str ['b'], .JSONREADY, ⟨true, true, true, .s ['5'], -1, -1⟩⟩
      = parseDefine [1] (cycleHeap ['a'] true true true)
          [DecNode.shell ⟨.ARRAY, none, arrayInitProps, none⟩]
          ⟨.NORMAL, none, [], none⟩
          ⟨.str ['b'], .JSONREADY, ⟨true, true, true, .s ['5'], -1, -1⟩⟩
          (resolveKey [] (.str ['b'])) :=
  ⟨nonconfigurable_skip.1 [1] (cycleHeap ['a'] true true true) []
      [DecNode.shell ⟨.ARRAY, none, arrayInitProps, none⟩]
      ⟨.ARRAY, none, arrayInitProps, none⟩
      ⟨.str ['l', 'e', 'n', 'g', 't', 'h'], .JSONREADY,
        ⟨true, true, true, .s ['5'], -1, -1⟩⟩
      ⟨false, false, some true, some (.prim (.pnum (.finite 0))), none, none⟩
      (by decide) (by decide),
   nonconfigurable_skip.2.1 [1] (cycleHeap ['a'] true true true) []
      [DecNode.shell ⟨.ARRAY, none, arrayInitProps, none⟩]
      ⟨.ARRAY, none, arrayInitProps, none⟩
      ⟨.str ['l', 'e', 'n', 'g', 't', 'h'], .JSONREADY,
        ⟨true, true, true, .s ['5'], -1, -1⟩⟩
      ⟨false, false, some true, some (.prim (.pnum (.finite 0))), none, none⟩ []
      (by decide) (by decide),
   nonconfigurable_skip.2.2.1 [1] (cycleHeap ['a'] true true true) []
      [DecNode.shell ⟨.ARRAY, none, arrayInitProps, none⟩]
      ⟨.NORMAL, none, [], none⟩
      ⟨.str ['b'], .JSONREADY, ⟨true, true, true, .s ['5'], -1, -1⟩⟩
      (by decide)⟩

theorem mkSymbolsAux_length (descs : List (Option (List Char))) :
    ∀ base, (mkSymbolsAux base descs).length = descs.length := by
  induction descs with
  | nil => intro base; rfl
  | cons d rest ih => intro base; simp [mkSymbolsAux, ih (base + 1)]

theorem mkSymbolsAux_get? (descs : List (Option (List Char))) :
    ∀ (base j : Nat), (mkSymbolsAux base descs).get? j
      = (descs.get? j).map fun d => (base + j, d) := by
  induction descs with
  | nil => intro base j; simp [mkSymbolsAux]
  | cons d rest ih =>
    intro base j
    cases j with
    | zero => simp [mkSymbolsAux]
    | succ k =>
      rw [mkSymbolsAux]
      show (mkSymbolsAux (base + 1) rest).get? k = _
      rw [ih (base + 1) k]
      show _ = (rest.get? k).map fun d => (base + (k + 1), d)
      cases hg : rest.get? k with
      | none => simp
      | some dd => simp; omega

/-- The envelope of the shared-custom-symbol example: two plain records,
each carrying one property keyed by custom symbol 0, whose table entry has
description `"t"`. -/
def symEnv : SerComplex :=
  ⟨[.obj ⟨.NORMAL, none, ⟨true, 0⟩,
      [⟨.customSym 0, .JSONREADY, ⟨true, true, true, .s ['5'], -1, -1⟩⟩]⟩,
    .obj ⟨.NORMAL, none, ⟨true, 0⟩,
      [⟨.customSym 0, .JSONREADY, ⟨true, true, true, .s ['6'], -1, -1⟩⟩]⟩],
   [some ['t']]⟩

/-- C10. Custom-symbol identity within one decode: the decoder materializes
the symbol table first, with exactly one fresh symbol per table entry
(first two conjuncts: one entry per description, the `j`-th carrying the
recorded description), every property key referencing in-range index `j`
resolves to that same single fresh symbol (third conjunct), distinct
indices resolve to distinct symbols (fourth conjunct) — the fresh symbols
are a separate sort from the encoder's symbols, hence never equal to the
originals — and decoding a concrete envelope whose two records both
reference index 0 gives both decoded properties literally the same key
(fifth conjunct). -/
theorem custom_symbol_identity :
    (∀ descs, (mkSymbols descs).length = descs.length) ∧
    (∀ descs (j : Nat),
      (mkSymbols descs).get? j = (descs.get? j).map fun d => (j, d)) ∧
    (∀ descs (j : Nat) d, descs.get? j = some d →
      resolveKey (mkSymbols descs) (.customSym (Int.ofNat j)) = .customSym j d) ∧
    (∀ descs (j1 j2 : Nat) d1 d2, descs.get? j1 = some d1 →
      descs.get? j2 = some d2 → j1 ≠ j2 →
      resolveKey (mkSymbols descs) (.customSym (Int.ofNat j1))
        ≠ resolveKey (mkSymbols descs) (.customSym (Int.ofNat j2))) ∧
    (∃ (sh1 sh2 : DecShell) (k : DecKey) (d1 d2 : DecDesc),
      parseComplex alwaysFun alwaysCls [1] (cycleHeap ['a'] true true true)
        symEnv = some [.shell sh1, .shell sh2] ∧
      sh1.props = [(k, d1)] ∧ sh2.props = [(k, d2)]) := by
  have hres : ∀ descs (j : Nat) d, descs.get? j = some d →
      resolveKey (mkSymbols descs) (.customSym (Int.ofNat j)) = .customSym j d := by
    intro descs j d hj
    rw [resolveKey]
    have hget : jsArrGet (mkSymbols descs) (Int.ofNat j) = some (j, d) := by
      rw [jsArrGet, if_pos (by simp [Int.ofNat_eq_coe])]
      show (mkSymbols descs).get? (Int.ofNat j).toNat = _
      rw [show (Int.ofNat j).toNat = j from by simp [Int.ofNat_eq_coe], mkSymbols,
        mkSymbolsAux_get? descs 0 j, hj]
      simp
    rw [hget]
  refine ⟨fun descs => mkSymbolsAux_length descs 0,
    fun descs j => by rw [mkSymbols, mkSymbolsAux_get? descs 0 j]; simp,
    hres, ?_, ?_⟩
  · intro descs j1 j2 d1 d2 h1 h2 hne
    rw [hres descs j1 d1 h1, hres descs j2 d2 h2]
    intro hc
    injection hc with hj _
    exact hne hj
  · exact ⟨_, _, .customSym 0 (some ['t']), _, _, rfl, rfl, rfl⟩

/-- Witness for C10: resolution and distinctness at a concrete two-entry
symbol table. -/
theorem custom_symbol_identity_witness :
    resolveKey (mkSymbols [some ['t'], none]) (.customSym (Int.ofNat 0))
      = .customSym 0 (some ['t']) ∧
    resolveKey (mkSymbols [some ['t'], none]) (.customSym (Int.ofNat 0))
      ≠ resolveKey (mkSymbols [some ['t'], none]) (.customSym (Int.ofNat 1)) :=
  ⟨custom_symbol_identity.2.2.1 [some ['t'], none] 0 (some ['t']) (by decide),
   custom_symbol_identity.2.2.2.1 [some ['t'], none] 0 1 (some ['t']) none
     (by decide) (by decide) (by decide)⟩

/-- An envelope whose single record is a FUNCTION whose source `"xyz"`
cannot be disassembled (it contains no parameter list). -/
def badEnv : SerComplex :=
  ⟨[.obj ⟨.FUNCTION, some ['x', 'y', 'z'], ⟨true, 0⟩, []⟩], []⟩

/-- Counterexample to C8 as stated: the unparsable callable source `"xyz"`
makes `parseFunctionString` return `null` (first conjunct), but decoding
the envelope containing that record is aborted anyway — pass 2 throws when
it wires the `null` shell (property reads and prototype attachment on
`null` throw TypeError) — so the whole decode fails (second and third
conjuncts). -/
theorem bad_callable_aborts_decode :
    parseFunctionString alwaysFun alwaysCls ['x', 'y', 'z'] = none ∧
    parseComplex alwaysFun alwaysCls [1] (cycleHeap ['a'] true true true)
      badEnv = none ∧
    deserialize alwaysFun alwaysCls [1] (cycleHeap ['a'] true true true)
      (.COMPLEX, .complex badEnv) = none :=
  ⟨rfl, rfl, rfl⟩

/-- C8 (amended). Unparsable callable recovery at the callable level: for
every source text that cannot be reconstructed — the parameter-list
extraction fails (first conjunct), the body extraction fails (second), the
`Function` compilation throws (third), or the class `eval` throws
(fourth) — `parseFunctionString` returns `null` instead of raising (the
try/catch swallows every exception). The enclosing decode of a whole
envelope is nevertheless aborted in pass 2 when it wires a record whose
callable is `null` (see the counterexample). -/
theorem unparsable_callable_yields_null :
    (∀ (fc : List Char → List Char → Bool) (cc : List Char → Bool)
      (str : List Char), startsClass str = false → paramExtract str = none →
      parseFunctionString fc cc str = none) ∧
    (∀ (fc : List Char → List Char → Bool) (cc : List Char → Bool)
      (str ps : List Char), startsClass str = false →
      paramExtract str = some ps → bodyExtract str = none →
      parseFunctionString fc cc str = none) ∧
    (∀ (fc : List Char → List Char → Bool) (cc : List Char → Bool)
      (str ps body : List Char), startsClass str = false →
      paramExtract str = some ps → bodyExtract str = some body →
      fc (paramChars ps) body = false →
      parseFunctionString fc cc str = none) ∧
    (∀ (fc : List Char → List Char → Bool) (cc : List Char → Bool)
      (str : List Char), startsClass str = true → cc str = false →
      parseFunctionString fc cc str = none) := by
  refine ⟨?_, ?_, ?_, ?_⟩
  · intro fc cc str hcl hpe
    rw [parseFunctionString, if_neg (by simp [hcl]), hpe]
  · intro fc cc str ps hcl hpe hbe
    rw [parseFunctionString, if_neg (by simp [hcl]), hpe]
    show (match bodyExtract str with
      | none => none
      | some body =>
        if fc (paramChars ps) body then some (Callable.fn (paramChars ps) body)
        else none) = none
    rw [hbe]
  · intro fc cc str ps body hcl hpe hbe hfc
    rw [parseFunctionString, if_neg (by simp [hcl]), hpe]
    show (match bodyExtract str with
      | none => none
      | some body =>
        if fc (paramChars ps) body then some (Callable.fn (paramChars ps) body)
        else none) = none
    rw [hbe]
    show (if fc (paramChars ps) body then some (Callable.fn (paramChars ps) body)
      else none) = none
    rw [if_neg (by simp [hfc])]
  · intro fc cc str hcl hcc
    rw [parseFunctionString, if_pos (by simp [hcl]), if_neg (by simp [hcc])]

/-- Witness for the amended C8 at concrete sources. -/
theorem unparsable_callable_yields_null_witness :
    parseFunctionString alwaysFun alwaysCls ['x', 'y', 'z'] = none ∧
    parseFunctionString alwaysFun alwaysCls ['(', ')', 'x'] = none ∧
    parseFunctionString (fun _ _ => false) alwaysCls
      ['(', ')', '{', '}'] = none ∧
    parseFunctionString alwaysFun (fun _ => false)
      ['c', 'l', 'a', 's', 's', ' ', 'A', '{', '}'] = none :=
  ⟨unparsable_callable_yields_null.1 alwaysFun alwaysCls ['x', 'y', 'z']
     (by decide) (by decide),
   unparsable_callable_yields_null.2.1 alwaysFun alwaysCls ['(', ')', 'x'] []
     (by decide) (by decide) (by decide),
   unparsable_callable_yields_null.2.2.1 (fun _ _ => false) alwaysCls
     ['(', ')', '{', '}'] [] [] (by decide) (by decide) (by decide) (by decide),
   unparsable_callable_yields_null.2.2.2 alwaysFun (fun _ => false)
     ['c', 'l', 'a', 's', 's', ' ', 'A', '{', '}'] (by decide) (by decide)⟩

theorem IndexMts.serializeProp_key (sp : List (List Char × Nat))
    (objects : List Nat) (k : JSKey) (d : JSPropDesc)
    (pr : IndexMts.IMProp × List Nat)
    (h : IndexMts.serializeProp sp objects k d = some pr) :
    pr.1.key = IndexMts.encodeKey sp k := by
  simp only [IndexMts.serializeProp] at h
  rcases Option.bind_eq_some.mp h with ⟨v, -, h2⟩
  rcases Option.map_eq_some'.mp h2 with ⟨kf, hkf, hpr⟩
  cases k with
  | str s =>
    cases hkf
    rw [← hpr]
    rfl
  | sym y =>
    rcases Option.map_eq_some'.mp hkf with ⟨name, hname, hkf2⟩
    rw [← hpr, ← hkf2]
    show _ = IndexMts.IMKey.mk true ((IndexMts.findSymbol sp y).getD [])
    rw [hname]
    rfl

/-- C7. Symbolic-key dropping (the `src/src/index.mts` variant): the
property loop keeps every own property whose key is a string (first
conjunct); a symbolic key is dropped exactly when it cannot be named
through the `Symbol` registry (`tryFindSymbol` finds no name — an unnamed,
non-registry symbol; second conjunct); and the emitted property list is
exactly the kept own properties, in order, with their serialized keys
(third conjunct), so all other properties of the object are still
encoded. -/
theorem symbolic_key_dropping :
    (∀ (sp : List (List Char × Nat)) (s : List Char),
      IndexMts.keptKey sp (.str s) = true) ∧
    (∀ (sp : List (List Char × Nat)) (y : JSym),
      IndexMts.keptKey sp (.sym y) = false ↔
        IndexMts.tryFindSymbol sp y = none) ∧
    (∀ (sp : List (List Char × Nat)) (objects : List Nat)
      (props : List (JSKey × JSPropDesc)) (res : List IndexMts.IMProp × List Nat),
      IndexMts.serializeProps sp objects props = some res →
      res.1.map (fun p => p.key)
        = (props.filter (fun e => IndexMts.keptKey sp e.1)).map
            (fun e => IndexMts.encodeKey sp e.1)) := by
  refine ⟨fun sp s => rfl, ?_, ?_⟩
  · intro sp y
    rw [IndexMts.keptKey]
    cases h : IndexMts.tryFindSymbol sp y with
    | none => simp [h]
    | some name => simp [h]
  · intro sp objects props
    induction props generalizing objects with
    | nil =>
      intro res h
      rw [IndexMts.serializeProps] at h
      cases h
      rfl
    | cons kd rest ih =>
      intro res h
      rw [IndexMts.serializeProps] at h
      by_cases hk : IndexMts.keptKey sp kd.1 = true
      · rw [if_pos hk] at h
        rcases Option.bind_eq_some.mp h with ⟨pr, hpr, h2⟩
        rcases Option.map_eq_some'.mp h2 with ⟨rr, hrr, hres⟩
        rw [← hres]
        show pr.1.key :: rr.1.map (fun p => p.key) = _
        rw [List.filter_cons, if_pos hk]
        show _ = IndexMts.encodeKey sp kd.1
          :: (rest.filter (fun e => IndexMts.keptKey sp e.1)).map
              (fun e => IndexMts.encodeKey sp e.1)
        rw [IndexMts.serializeProp_key sp objects kd.1 kd.2 pr hpr,
          ih pr.2 rr hrr]
      · rw [if_neg hk] at h
        rw [List.filter_cons, if_neg hk]
        exact ih objects res h

/-- The own-property list of the concrete C7 example: an unnameable
symbol, a string key, and a registry-named symbol. -/
def c7props : List (JSKey × JSPropDesc) :=
  [(JSKey.sym ⟨3, none, none⟩,
     JSPropDesc.mk true false (some true) (some (.vNum (.finite 5))) none none),
   (JSKey.str ['a'],
     JSPropDesc.mk true false (some true) (some (.vNum (.finite 5))) none none),
   (JSKey.sym ⟨7, none, none⟩,
     JSPropDesc.mk true false (some true) (some (.vNum (.finite 5))) none none)]

/-- Witness for C7: a registry-named symbolic key and a string key are
kept, an unnameable symbolic key is dropped. -/
theorem symbolic_key_dropping_witness :
    ([{ key := ⟨false, ['a']⟩, type := .JSONREADY,
        descriptor := ⟨true, true, false, .s ['5'], -1, -1⟩ },
      { key := ⟨true, ['i', 't']⟩, type := .JSONREADY,
        descriptor := ⟨true, true, false, .s ['5'], -1, -1⟩ }]
      : List IndexMts.IMProp).map (fun p => p.key)
      = List.map (fun e => IndexMts.encodeKey [(['i', 't'], 7)] e.1)
          (List.filter (fun e => IndexMts.keptKey [(['i', 't'], 7)] e.1) c7props) :=
  symbolic_key_dropping.2.2 [(['i', 't'], 7)] [] c7props
    ([{ key := ⟨false, ['a']⟩, type := .JSONREADY,
        descriptor := ⟨true, true, false, .s ['5'], -1, -1⟩ },
      { key := ⟨true, ['i', 't']⟩, type := .JSONREADY,
        descriptor := ⟨true, true, false, .s ['5'], -1, -1⟩ }], [])
    (by decide)
